import Mathlib

/-!
Verification of the BabelDOC PDF-translation pipeline (`babeldoc/document_il`).

Each section below is a shallow embedding of one part of the pipeline's
midend, translated directly from the Python sources:

* `DetectScannedFile` — `midend/detect_scanned_file.py`
* `IL`                — the shared data model (`il_version_1.py`, `utils/layout_helper.py`)
* `StylesAndFormulas` — `midend/styles_and_formulas.py`
* `ParagraphFinder`   — `midend/paragraph_finder.py`
* `ILTranslator`      — `midend/il_translator.py`
* `Typesetting`       — `midend/typesetting.py`
* `RateLimiter`       — `translator/translator.py`
* `XmlConv`           — `xml_converter.py` (serialization modelled from the spec,
  the actual serializer lives in the external `xsdata`/`orjson` libraries)

Python floats are embedded as rationals (`ℚ`), Python lists as `List`,
`None`-able values as `Option`, and exceptions as `Except`/`Bool` flags.
While-loops that are not structurally recursive are given an explicit fuel
parameter together with a theorem showing a concrete fuel suffices.
-/

namespace DetectScannedFile

/-- Embedding of `DetectScannedFile.detect_page_is_scanned`
(`detect_scanned_file.py:104-128`): the page is reported scanned exactly
when the grayscale structural similarity of the renderings before and
after substituting the reconstructed stream exceeds `0.9`. -/
def pageIsScanned (similarity : ℚ) : Bool :=
  decide ((9 : ℚ) / 10 < similarity)

/-- Embedding of the counting loop of `DetectScannedFile.process`
(`detect_scanned_file.py:84-95`).  Each sampled page is detected only while
`scanned < threshold` and `non_scanned < non_scanned_threshold`; once either
bound is reached the remaining pages are counted as non-scanned without
detection.  Returns the final `(scanned, non_scanned)` counters. -/
def processCount (threshold nonScannedThreshold : ℚ) :
    List ℚ → ℕ → ℕ → ℕ × ℕ
  | [], scanned, nonScanned => (scanned, nonScanned)
  | sim :: rest, scanned, nonScanned =>
    if (scanned : ℚ) < threshold ∧ (nonScanned : ℚ) < nonScannedThreshold then
      if pageIsScanned sim then
        processCount threshold nonScannedThreshold rest (scanned + 1) nonScanned
      else
        processCount threshold nonScannedThreshold rest scanned (nonScanned + 1)
    else
      processCount threshold nonScannedThreshold rest scanned (nonScanned + 1)

/-- Embedding of `DetectScannedFile.process` (`detect_scanned_file.py:65-102`),
as a predicate over the list of per-page similarity scores: returns `true`
exactly when the stage raises `ScannedPDFError`.  `threshold` is
`max(0.8 * total, 1)` and the error is raised when the final `scanned`
counter is strictly greater than `threshold`. -/
def processRaisesScannedError (sims : List ℚ) : Bool :=
  let total : ℕ := sims.length
  let threshold : ℚ := max ((4 : ℚ) / 5 * (total : ℚ)) 1
  let nonScannedThreshold : ℚ := (total : ℚ) - threshold
  decide (threshold < ((processCount threshold nonScannedThreshold sims 0 0).1 : ℚ))

theorem processCount_fst_le (sims : List ℚ) (th nth : ℚ) (s ns : ℕ) :
    (processCount th nth sims s ns).1 ≤ s + sims.countP pageIsScanned := by
  induction sims generalizing s ns with
  | nil => simp [processCount]
  | cons a l ih =>
    rw [processCount]
    by_cases hcond : (s : ℚ) < th ∧ (ns : ℚ) < nth
    · rw [if_pos hcond]
      by_cases hsc : pageIsScanned a
      · rw [if_pos hsc]
        have := ih (s + 1) ns
        simp only [List.countP_cons, hsc, if_true]
        omega
      · rw [if_neg hsc]
        have := ih s (ns + 1)
        simp only [List.countP_cons, hsc, if_false]
        omega
    · rw [if_neg hcond]
      have := ih s (ns + 1)
      by_cases hsc : pageIsScanned a <;>
        simp only [List.countP_cons, hsc, if_true, if_false] <;> omega

/-- C1 (corrected).  In the code a sampled page whose before/after grayscale
structural similarity exceeds `0.9` is classified as SCANNED (the reconstructed
stream with text stripped still reproduces the page), not as digitally-born,
and `ScannedPDFError` is raised only when the scanned counter exceeds
`max(0.8 * total, 1)` — in particular only if strictly more than 80% of the
sampled pages had similarity above `0.9`. -/
theorem detect_scanned_raise_implies_high_similarity_majority (sims : List ℚ)
    (h : processRaisesScannedError sims = true) :
    (4 : ℚ) / 5 * sims.length < sims.countP pageIsScanned ∧
      ∀ s : ℚ, (9 : ℚ) / 10 < s → pageIsScanned s = true := by
  constructor
  · unfold processRaisesScannedError at h
    simp only [decide_eq_true_eq] at h
    have hle := processCount_fst_le sims
      (max ((4 : ℚ) / 5 * (sims.length : ℚ)) 1)
      ((sims.length : ℚ) - max ((4 : ℚ) / 5 * (sims.length : ℚ)) 1) 0 0
    have hmax : (4 : ℚ) / 5 * (sims.length : ℚ) ≤
        max ((4 : ℚ) / 5 * (sims.length : ℚ)) 1 := le_max_left _ _
    have hcast : ((processCount (max ((4 : ℚ) / 5 * (sims.length : ℚ)) 1)
        ((sims.length : ℚ) - max ((4 : ℚ) / 5 * (sims.length : ℚ)) 1) sims 0 0).1 : ℚ) ≤
        (sims.countP pageIsScanned : ℚ) := by
      have hle0 : (processCount (max ((4 : ℚ) / 5 * (sims.length : ℚ)) 1)
          ((sims.length : ℚ) - max ((4 : ℚ) / 5 * (sims.length : ℚ)) 1) sims 0 0).1 ≤
          sims.countP pageIsScanned := by simpa using hle
      exact_mod_cast hle0
    calc (4 : ℚ) / 5 * (sims.length : ℚ) ≤ _ := hmax
      _ < _ := h
      _ ≤ (sims.countP pageIsScanned : ℚ) := hcast
  · intro s hs
    simp only [pageIsScanned, decide_eq_true_eq]
    exact hs

/-- Witness for the C1 theorem: two sampled pages, both with similarity
`0.95 > 0.9`; the run raises the scanned-PDF error and indeed more than 80%
of the sampled pages had similarity above `0.9`. -/
theorem detect_scanned_raise_implies_high_similarity_majority_witness :
    processRaisesScannedError [mkRat 19 20, mkRat 19 20] = true ∧
      ((4 : ℚ) / 5 * ([mkRat 19 20, mkRat 19 20] : List ℚ).length <
          ([mkRat 19 20, mkRat 19 20] : List ℚ).countP pageIsScanned ∧
        ∀ s : ℚ, (9 : ℚ) / 10 < s → pageIsScanned s = true) :=
  ⟨by with_unfolding_all decide,
    detect_scanned_raise_implies_high_similarity_majority _
      (by with_unfolding_all decide)⟩

/-- Counterexample to C1 as stated.  The claim says a page with similarity
above `0.9` is classified as a normal digitally-born page and that the run
fails exactly when more than 80% of the sampled pages have similarity at most
`0.9`.  In the code, a page with similarity `0.95` IS classified as scanned,
and a run over one sampled page of similarity `0.5` (100% of pages at most
`0.9`) does NOT raise the scanned-PDF error. -/
theorem detect_scanned_claim_counterexample :
    pageIsScanned (mkRat 19 20) = true ∧
      (mkRat 1 2 ≤ (9 : ℚ) / 10 ∧
        processRaisesScannedError [mkRat 1 2] = false) := by
  with_unfolding_all decide

end DetectScannedFile

namespace RateLimiter

/-- Embedding of the cleanup loop at the top of `RateLimiter.wait`
(`translator/translator.py:37-38`): pop entries from the front of
`last_requests` while the front is more than one second older than `now`. -/
def cleanup (now : ℚ) : List ℚ → List ℚ
  | [] => []
  | x :: rest => if 1 < now - x then cleanup now rest else x :: rest

/-- Embedding of one call to `RateLimiter.wait` (`translator/translator.py:32-50`)
at wall-clock time `now` with window state `reqs`.  Returns the time at which
the call returns (its admission time) and the new window state.  When the
window is full the call sleeps until `last_requests[0] + 1.0` (if that is
still in the future), pops the front and appends `next_time`.  The `[]`
branch of the inner match is unreachable whenever `1 ≤ maxQps`. -/
def waitStep (maxQps : ℕ) (now : ℚ) (reqs : List ℚ) : ℚ × List ℚ :=
  let l := cleanup now reqs
  if l.length < maxQps then (now, l ++ [now])
  else
    match l with
    | [] => (now, [now])
    | first :: rest => (max (first + 1) now, rest ++ [first + 1])

/-- Serialized sequence of `wait` calls.  `prev` is the time at which the
previous call returned; because all calls serialize on `self.lock` and
`time.time()` is read after acquiring it, the clock observed by a call is at
least `max` of its own arrival time and the previous call's return time.
Returns the list of admission (return) times. -/
def runAdmissions (maxQps : ℕ) : List ℚ → ℚ → List ℚ → List ℚ
  | [], _, _ => []
  | t :: ts, prev, reqs =>
    let now := max t prev
    let s := waitStep maxQps now reqs
    s.1 :: runAdmissions maxQps ts s.1 s.2

/-- Admission times of a fresh `RateLimiter` (empty `last_requests`) fed a
list of arrival times. -/
def admissions (maxQps : ℕ) (arrivals : List ℚ) : List ℚ :=
  match arrivals with
  | [] => []
  | t :: ts => runAdmissions maxQps (t :: ts) t []

/-- No `maxQps + 1` admissions ever fall within one second of each other:
the admission `maxQps` positions later is at least one second younger. -/
def WindowBounded (maxQps : ℕ) (l : List ℚ) : Prop :=
  ∀ i (h : i + maxQps < l.length), l[i] + 1 ≤ l[i + maxQps]

theorem cleanup_drop (now : ℚ) (reqs : List ℚ) :
    ∃ k, k ≤ reqs.length ∧ cleanup now reqs = reqs.drop k ∧
      ∀ x ∈ reqs.take k, x + 1 < now := by
  induction reqs with
  | nil => exact ⟨0, by simp [cleanup]⟩
  | cons a rest ih =>
    rw [cleanup]
    by_cases hc : 1 < now - a
    · obtain ⟨k, hk, heq, hx⟩ := ih
      refine ⟨k + 1, by simpa using hk, by simpa [hc] using heq, ?_⟩
      intro x hx'
      rw [List.take_succ_cons] at hx'
      rcases List.mem_cons.mp hx' with hm | hm
      · subst hm; linarith
      · exact hx x hm
    · exact ⟨0, by simp, by simp [hc], by simp⟩

theorem cleanup_head_recent (now : ℚ) (reqs : List ℚ) {x : ℚ} {r : List ℚ}
    (h : cleanup now reqs = x :: r) : now - x ≤ 1 := by
  induction reqs with
  | nil => simp [cleanup] at h
  | cons a rest ih =>
    rw [cleanup] at h
    by_cases hc : 1 < now - a
    · rw [if_pos hc] at h; exact ih h
    · rw [if_neg hc] at h
      rw [List.cons.injEq] at h
      obtain ⟨rfl, -⟩ := h
      linarith [not_lt.mp hc]

/-- Invariant carried through a serialized run: `hist` is the list of all
admissions so far, `prev` the previous return time, `reqs` the window state. -/
structure Inv (maxQps : ℕ) (prev : ℚ) (reqs : List ℚ) (hist : List ℚ) : Prop where
  chain : hist.Chain' (· ≤ ·)
  bounded : WindowBounded maxQps hist
  lenLe : reqs.length ≤ maxQps
  histLe : ∀ x ∈ hist, x ≤ prev
  suffix : ∃ p, p ≤ hist.length ∧ reqs = hist.drop p ∧
    ∀ x ∈ hist.take p, x + 1 ≤ prev

theorem windowBounded_append (maxQps : ℕ) (hq1 : 1 ≤ maxQps) (hist : List ℚ) (a : ℚ)
    (hb : WindowBounded maxQps hist)
    (hnew : ∀ hq : maxQps ≤ hist.length,
      hist.get ⟨hist.length - maxQps, by omega⟩ + 1 ≤ a) :
    WindowBounded maxQps (hist ++ [a]) := by
  intro i h
  have hlen : (hist ++ [a]).length = hist.length + 1 := by simp
  rw [hlen] at h
  by_cases hlt : i + maxQps < hist.length
  · have h1 : i < hist.length := by omega
    have hb1 : i < (hist ++ [a]).length := by omega
    have hb2 : i + maxQps < (hist ++ [a]).length := by omega
    rw [List.getElem_append_left h1, List.getElem_append_left hlt]
    exact hb i hlt
  · have hi : i + maxQps = hist.length := by omega
    have h1 : i < hist.length := by omega
    have hb1 : i < (hist ++ [a]).length := by omega
    have hb2 : i + maxQps < (hist ++ [a]).length := by omega
    rw [List.getElem_append_left h1,
      List.getElem_concat_length hist a (i + maxQps) hi]
    have := hnew (by omega)
    have hidx : i = hist.length - maxQps := by omega
    subst hidx
    simpa [List.get_eq_getElem] using this

theorem chain'_append_le (hist : List ℚ) (a : ℚ) (hc : hist.Chain' (· ≤ ·))
    (hle : ∀ x ∈ hist, x ≤ a) : (hist ++ [a]).Chain' (· ≤ ·) := by
  rw [List.chain'_append]
  refine ⟨hc, List.chain'_singleton a, ?_⟩
  intro x hx y hy
  simp only [List.head?_cons, Option.mem_def, Option.some.injEq] at hy
  subst hy
  obtain ⟨h, rfl⟩ := List.mem_getLast?_eq_getLast hx
  exact hle _ (List.getLast_mem h)

theorem inv_step (maxQps : ℕ) (hq : 1 ≤ maxQps) (prev now : ℚ) (hnow : prev ≤ now)
    (reqs hist : List ℚ) (inv : Inv maxQps prev reqs hist) :
    Inv maxQps (waitStep maxQps now reqs).1 (waitStep maxQps now reqs).2
      (hist ++ [(waitStep maxQps now reqs).1]) := by
  obtain ⟨p, hp, hreq, htake⟩ := inv.suffix
  obtain ⟨k, hk, hclean, hkx⟩ := cleanup_drop now reqs
  have hreqlen : reqs.length = hist.length - p := by rw [hreq, List.length_drop]
  have hl : cleanup now reqs = hist.drop (p + k) := by
    rw [hclean, hreq, List.drop_drop]
  have hpk : p + k ≤ hist.length := by omega
  have htakepk : ∀ x ∈ hist.take (p + k), x + 1 ≤ now := by
    rw [List.take_add]
    intro x hx
    rcases List.mem_append.mp hx with hm | hm
    · exact le_trans (htake x hm) hnow
    · rw [← hreq] at hm
      exact le_of_lt (hkx x hm)
  have hlenclean : (cleanup now reqs).length = hist.length - (p + k) := by
    rw [hl, List.length_drop]
  by_cases hfull : (cleanup now reqs).length < maxQps
  · -- window not yet full: admit at `now`, append `now`
    have hws : waitStep maxQps now reqs = (now, cleanup now reqs ++ [now]) := by
      rw [waitStep]
      simp only [hfull, if_true]
    rw [hws]
    have hhistle : ∀ x ∈ hist, x ≤ now := fun x hx => le_trans (inv.histLe x hx) hnow
    refine ⟨chain'_append_le hist now inv.chain hhistle, ?_, ?_, ?_, ?_⟩
    · -- WindowBounded
      refine windowBounded_append maxQps hq hist now inv.bounded ?_
      intro hqlen
      have hidx : hist.length - maxQps < p + k := by omega
      have hidx2 : hist.length - maxQps < hist.length := by omega
      have hmem : hist.get ⟨hist.length - maxQps, hidx2⟩ ∈ hist.take (p + k) := by
        have hlt : hist.length - maxQps < (hist.take (p + k)).length := by
          simp only [List.length_take]
          omega
        have := List.getElem_take hist (j := p + k) (i := hist.length - maxQps) (h := hlt)
        rw [List.get_eq_getElem, ← this]
        exact List.getElem_mem hlt
      exact htakepk _ hmem
    · simp only [List.length_append, List.length_cons, List.length_nil]
      omega
    · intro x hx
      rcases List.mem_append.mp hx with hm | hm
      · exact hhistle x hm
      · simp only [List.mem_singleton] at hm
        exact le_of_eq hm
    · refine ⟨p + k, by simp; omega, ?_, ?_⟩
      · rw [List.drop_append_of_le_length hpk, hl]
      · rw [List.take_append_of_le_length hpk]
        exact htakepk
  · -- window full: admit at `first + 1`, pop front, append `first + 1`
    have hlen1 : 1 ≤ (cleanup now reqs).length := by omega
    cases hcl : cleanup now reqs with
    | nil => rw [hcl] at hlen1; simp at hlen1
    | cons first rest =>
      have hrecent : now - first ≤ 1 := cleanup_head_recent now reqs hcl
      have hmax : max (first + 1) now = first + 1 := max_eq_left (by linarith)
      have hws : waitStep maxQps now reqs = (first + 1, rest ++ [first + 1]) := by
        simp only [waitStep]
        rw [hcl]
        rw [if_neg (by rw [← hcl]; exact hfull)]
        simp [hmax]
      rw [hws]
      have hcleanlen : (cleanup now reqs).length ≤ reqs.length := by
        rw [hclean, List.length_drop]; omega
      have hlenq : (cleanup now reqs).length = maxQps := by
        have := inv.lenLe
        omega
      have hpkq : p + k = hist.length - maxQps := by
        rw [hlenq] at hlenclean
        omega
      have hqlen : maxQps ≤ hist.length := by
        rw [hcl] at hlenclean
        simp only [List.length_cons] at hlenclean
        omega
      have hpklt : p + k < hist.length := by omega
      have hdc : hist.drop (p + k) = first :: rest := by rw [← hl, hcl]
      have hfirst : first = hist[p + k] := by
        have h1 : (hist.drop (p + k))[0]? = hist[p + k]? := by
          rw [List.getElem?_drop]
          norm_num
        rw [hdc, List.getElem?_cons_zero, List.getElem?_eq_getElem hpklt] at h1
        exact Option.some.inj h1
      have hhistle : ∀ x ∈ hist, x ≤ now := fun x hx => le_trans (inv.histLe x hx) hnow
      have hnowle : now ≤ first + 1 := by linarith
      refine ⟨?_, ?_, ?_, ?_, ?_⟩
      · exact chain'_append_le hist (first + 1) inv.chain
          (fun x hx => le_trans (hhistle x hx) hnowle)
      · refine windowBounded_append maxQps hq hist (first + 1) inv.bounded ?_
        intro hqlen2
        have hidxlt : hist.length - maxQps < hist.length := by omega
        show hist.get ⟨hist.length - maxQps, hidxlt⟩ + 1 ≤ first + 1
        have hfin : (⟨hist.length - maxQps, hidxlt⟩ : Fin hist.length) = ⟨p + k, hpklt⟩ := by
          apply Fin.ext
          simp [hpkq]
        rw [hfin, List.get_eq_getElem, ← hfirst]
      · have hlc : (first :: rest).length = maxQps := by rw [← hcl]; exact hlenq
        simp only [List.length_cons] at hlc
        simp only [List.length_append, List.length_cons, List.length_nil]
        omega
      · intro x hx
        rcases List.mem_append.mp hx with hm | hm
        · exact le_trans (hhistle x hm) hnowle
        · simp only [List.mem_singleton] at hm
          exact le_of_eq hm
      · refine ⟨p + k + 1, by simp; omega, ?_, ?_⟩
        · have hdrop1 : hist.drop (p + k + 1) = rest := by
            rw [← List.drop_drop 1 (p + k) hist, hdc]
            rfl
          rw [List.drop_append_of_le_length (by omega), hdrop1]
        · rw [List.take_append_of_le_length (by omega)]
          intro x hx
          rw [List.take_succ] at hx
          rcases List.mem_append.mp hx with hm | hm
          · exact le_trans (htakepk x hm) hnowle
          · rw [List.getElem?_eq_getElem hpklt] at hm
            simp only [Option.toList_some, List.mem_singleton] at hm
            subst hm
            rw [← hfirst]

theorem runAdmissions_inv (maxQps : ℕ) (hq : 1 ≤ maxQps) (ts : List ℚ) :
    ∀ (prev : ℚ) (reqs hist : List ℚ), Inv maxQps prev reqs hist →
      WindowBounded maxQps (hist ++ runAdmissions maxQps ts prev reqs) ∧
        (hist ++ runAdmissions maxQps ts prev reqs).Chain' (· ≤ ·) := by
  induction ts with
  | nil =>
    intro prev reqs hist inv
    simp only [runAdmissions, List.append_nil]
    exact ⟨inv.bounded, inv.chain⟩
  | cons t ts ih =>
    intro prev reqs hist inv
    have hstep := inv_step maxQps hq prev (max t prev) (le_max_right t prev) reqs hist inv
    have hrec := ih (waitStep maxQps (max t prev) reqs).1
      (waitStep maxQps (max t prev) reqs).2
      (hist ++ [(waitStep maxQps (max t prev) reqs).1]) hstep
    simp only [runAdmissions]
    rw [List.append_cons]
    exact hrec

/-- C8 (confirmed).  For a `RateLimiter` configured for `maxQps` queries per
second, the sequence of admission (return) times of any serialized sequence of
`wait` calls is nondecreasing and satisfies: the admission `maxQps` positions
later is at least one full second younger.  With `i = 0` this is exactly the
claim's instance: the `(N+1)`-th call returns no earlier than one second after
the 1st call of the current window, and no window of one second (half-open)
ever contains more than `maxQps` admissions. -/
theorem rate_limiter_sliding_window (maxQps : ℕ) (hq : 1 ≤ maxQps)
    (arrivals : List ℚ) :
    WindowBounded maxQps (admissions maxQps arrivals) ∧
      (admissions maxQps arrivals).Chain' (· ≤ ·) := by
  cases arrivals with
  | nil =>
    constructor
    · intro i h
      simp [admissions] at h
    · simp [admissions]
  | cons t ts =>
    have hinv : Inv maxQps t [] [] := by
      refine ⟨List.chain'_nil, ?_, by simp, by simp, 0, by simp, by simp, by simp⟩
      intro i h
      simp at h
    have := runAdmissions_inv maxQps hq (t :: ts) t [] [] hinv
    simpa [admissions] using this

/-- Witness for the C8 theorem: one query per second, two calls both arriving
at time `0`; the second call is admitted at time `1`. -/
theorem rate_limiter_sliding_window_witness :
    1 ≤ 1 ∧
      (WindowBounded 1 (admissions 1 [0, 0]) ∧
        (admissions 1 [0, 0]).Chain' (· ≤ ·)) :=
  ⟨le_refl 1, rate_limiter_sliding_window 1 (le_refl 1) [0, 0]⟩

end RateLimiter

namespace IL

/-- Embedding of the `box` dataclass of `il_version_1.py` (all four
coordinates required in practice, so plain rationals). -/
structure Box where
  x : ℚ
  y : ℚ
  x2 : ℚ
  y2 : ℚ
deriving DecidableEq, Repr

/-- Embedding of `pdfStyle` (`il_version_1.py:320`), reduced to the fields
the midend stages under verification read; the graphic state is carried as
its opaque passthrough instruction string. -/
structure PdfStyle where
  font_id : Option String
  font_size : Option ℚ
  graphic_state : Option String
deriving DecidableEq, Repr

/-- Embedding of `pdfCharacter` (`il_version_1.py:394`), reduced to the
fields the midend stages under verification read. -/
structure PdfChar where
  char_unicode : String
  box : Box
  pdf_style : PdfStyle
  pdf_character_id : Option ℤ
  vertical : Bool
  xobj_id : ℤ
deriving DecidableEq, Repr

/-- Embedding of `pdfLine` (`il_version_1.py:524`). -/
structure PdfLine where
  pdf_character : List PdfChar
  box : Box
deriving DecidableEq, Repr

/-- Embedding of `pdfFormula` (`il_version_1.py:488`).  In the Python
dataclass `x_offset`/`y_offset` default to `None` and are filled in by
`process_page_offsets` before any stage reads them; they are embedded as
plain rationals defaulting to `0`. -/
structure PdfFormula where
  pdf_character : List PdfChar
  box : Box
  x_offset : ℚ
  y_offset : ℚ
deriving DecidableEq, Repr

/-- Embedding of `pdfSameStyleCharacters` (`il_version_1.py:546`). -/
structure PdfSameStyleChars where
  pdf_character : List PdfChar
  box : Box
  pdf_style : PdfStyle
deriving DecidableEq, Repr

/-- Embedding of `pdfSameStyleUnicodeCharacters` (`il_version_1.py:461`). -/
structure PdfSameStyleUnicodeChars where
  unicode : String
  pdf_style : Option PdfStyle
deriving DecidableEq, Repr

/-- Embedding of `pdfParagraphComposition` (`il_version_1.py:576`).  The
dataclass keeps five optional fields of which exactly one is set; this is
embedded as a proper tagged union. -/
inductive Composition where
  | line (l : PdfLine)
  | formula (f : PdfFormula)
  | character (c : PdfChar)
  | sameStyleCharacters (s : PdfSameStyleChars)
  | sameStyleUnicodeCharacters (u : PdfSameStyleUnicodeChars)
deriving DecidableEq, Repr

/-- Characters carried by one composition, in reading order
(unicode-only compositions carry no `PdfCharacter`). -/
def Composition.chars : Composition → List PdfChar
  | .line l => l.pdf_character
  | .formula f => f.pdf_character
  | .character c => [c]
  | .sameStyleCharacters s => s.pdf_character
  | .sameStyleUnicodeCharacters _ => []

/-- Concatenation of all compositions' characters in order: the paragraph's
reading order. -/
def charSeq (comps : List Composition) : List PdfChar :=
  comps.flatMap Composition.chars

/-- Embedding of `pdfParagraph` (`il_version_1.py:618`), reduced to the
fields the midend stages under verification read. -/
structure PdfParagraph where
  pdf_paragraph_composition : List Composition
  box : Box
  vertical : Bool
  xobj_id : ℤ
  unicode : String
  first_line_indent : Bool
  pdf_style : Option PdfStyle
deriving DecidableEq, Repr

/-- Minimum of `f` over a character list; Python's `min()` on the empty
generator raises, and every caller guarantees a nonempty list. -/
def listMin (f : PdfChar → ℚ) : List PdfChar → ℚ
  | [] => 0
  | c :: rest => rest.foldl (fun acc ch => min acc (f ch)) (f c)

/-- Maximum of `f` over a character list (nonempty at every call site). -/
def listMax (f : PdfChar → ℚ) : List PdfChar → ℚ
  | [] => 0
  | c :: rest => rest.foldl (fun acc ch => max acc (f ch)) (f c)

/-- Embedding of `update_line_data` (`styles_and_formulas.py:51-56` and
`paragraph_finder.py:77-82`): the line box is the bounding box of its
characters. -/
def updateLineBox (chars : List PdfChar) : Box :=
  ⟨listMin (fun c => c.box.x) chars, listMin (fun c => c.box.y) chars,
    listMax (fun c => c.box.x2) chars, listMax (fun c => c.box.y2) chars⟩

/-- A `PdfLine` built from characters, with its box already updated. -/
def mkLine (chars : List PdfChar) : PdfLine :=
  ⟨chars, updateLineBox chars⟩

/-- Embedding of `HEIGHT_NOT_USFUL_CHAR_IN_CHAR` (`utils/layout_helper.py:12-33`). -/
def heightNotUsefulChars : List String :=
  ["∑︁", "(cid:17)", "(cid:16)", "(cid:104)", "(cid:105)", "(cid:13)",
    "∑︁", "(cid:88)", "(cid:89)", "(cid:90)", "(cid:2)", "(cid:3)"]

/-- Embedding of `formular_height_ignore_char` (`utils/layout_helper.py:40-44`). -/
def formularHeightIgnoreChar (c : PdfChar) : Bool :=
  c.pdf_character_id = none ∨ heightNotUsefulChars.contains c.char_unicode

/-- Embedding of `LEFT_BRACKET` (`utils/layout_helper.py:36`). -/
def leftBrackets : List String :=
  ["(cid:8)", "(", "(cid:16)", "\x7b", "[", "(cid:104)", "(cid:2)"]

/-- Embedding of `RIGHT_BRACKET` (`utils/layout_helper.py:37`). -/
def rightBrackets : List String :=
  ["(cid:9)", ")", "(cid:17)", "\x7d", "]", "(cid:105)", "(cid:3)"]

/-- Embedding of `update_formula_data` (`styles_and_formulas.py:455-472`):
x-range over all characters, y-range over the characters whose height is
meaningful (falling back to all characters when none is). -/
def updateFormulaBox (chars : List PdfChar) : Box :=
  let minX := listMin (fun c => c.box.x) chars
  let maxX := listMax (fun c => c.box.x2) chars
  if ¬ chars.all formularHeightIgnoreChar then
    let meaningful := chars.filter (fun c => ¬ formularHeightIgnoreChar c)
    ⟨minX, listMin (fun c => c.box.y) meaningful, maxX,
      listMax (fun c => c.box.y2) meaningful⟩
  else
    ⟨minX, listMin (fun c => c.box.y) chars, maxX,
      listMax (fun c => c.box.y2) chars⟩

/-- A `PdfFormula` built from characters (`PdfFormula(pdf_character=chars)`
followed by `update_formula_data`); offsets start at their default. -/
def mkFormula (chars : List PdfChar) : PdfFormula :=
  ⟨chars, updateFormulaBox chars, 0, 0⟩

/-- Concatenated text of a character list, as `"".join(char_unicode)`. -/
def charsText (chars : List PdfChar) : List Char :=
  chars.flatMap (fun c => c.char_unicode.data)

end IL

namespace StylesAndFormulas

open IL

/-- Whitespace class of Python's regex `\s` (ASCII part), used by
`should_split_formula`'s `re.sub(r"[0-9\[\],\s]", "", text)`. -/
def isPySpace (c : Char) : Bool :=
  c = ' ' ∨ c = '\t' ∨ c = '\n' ∨ c = '\r' ∨ c = '\x0b' ∨ c = '\x0c'

/-- Embedding of `StylesAndFormulas.should_split_formula`
(`styles_and_formulas.py:559-567`): the formula text must contain a comma
and keep some character after deleting digits, square brackets, commas and
whitespace. -/
def shouldSplitFormula (f : PdfFormula) : Bool :=
  let text := charsText f.pdf_character
  if ¬ text.contains ',' then false
  else
    ¬ (text.filter (fun c =>
        ¬ (c.isDigit ∨ c = '[' ∨ c = ']' ∨ c = ',' ∨ isPySpace c))).isEmpty

/-- Embedding of the loop body of `StylesAndFormulas.split_formula_by_comma`
(`styles_and_formulas.py:569-603`): bracket-depth-aware split at top-level
commas.  A top-level comma reached while the current group is empty is
dropped (`if current_chars:` fails), mirroring the source's handling of
leading/consecutive commas. -/
def splitByCommaGo : List PdfChar → List PdfChar → ℕ →
    List (List PdfChar × Option PdfChar)
  | [], current, _ => if current.isEmpty then [] else [(current, none)]
  | c :: rest, current, lvl =>
    if leftBrackets.contains c.char_unicode then
      splitByCommaGo rest (current ++ [c]) (lvl + 1)
    else if rightBrackets.contains c.char_unicode then
      splitByCommaGo rest (current ++ [c]) (lvl - 1)
    else if c.char_unicode = "," ∧ lvl = 0 then
      (if current.isEmpty then [] else [(current, some c)]) ++
        splitByCommaGo rest [] 0
    else
      splitByCommaGo rest (current ++ [c]) lvl

/-- Embedding of `StylesAndFormulas.split_formula_by_comma`. -/
def splitFormulaByComma (f : PdfFormula) :
    List (List PdfChar × Option PdfChar) :=
  splitByCommaGo f.pdf_character [] 0

/-- Embedding of the per-composition body of
`StylesAndFormulas.process_comma_formulas` (`styles_and_formulas.py:677-699`). -/
def processCommaOne (comp : Composition) : List Composition :=
  match comp with
  | .formula f =>
    if shouldSplitFormula f then
      (splitFormulaByComma f).flatMap (fun g =>
        if g.1.isEmpty then []
        else
          .formula (mkFormula g.1) ::
            (match g.2 with
              | some comma => [.line (mkLine [comma])]
              | none => []))
    else [comp]
  | _ => [comp]

/-- Embedding of `StylesAndFormulas.process_comma_formulas`
(`styles_and_formulas.py:667-701`) on one paragraph's composition list. -/
def processCommaFormulas (comps : List Composition) : List Composition :=
  comps.flatMap processCommaOne

/-- Sort key of `merge_formulas`: Python's `sorted(key=lambda c: (c.box.y,
c.box.x))` orders lexicographically by `(y, x)` and is stable; insertion
sort with this total preorder computes the same stable result. -/
def charKeyLE (a b : PdfChar) : Prop :=
  a.box.y < b.box.y ∨ (a.box.y = b.box.y ∧ a.box.x ≤ b.box.x)

instance : DecidableRel charKeyLE := fun a b => by
  unfold charKeyLE; infer_instance

/-- Embedding of `StylesAndFormulas.merge_formulas`
(`styles_and_formulas.py:605-614`): concatenate both character lists, re-sort
them by `(y, x)` and recompute the box. -/
def mergeFormulas (f1 f2 : PdfFormula) : PdfFormula :=
  let sortedChars :=
    List.insertionSort charKeyLE (f1.pdf_character ++ f2.pdf_character)
  ⟨sortedChars, updateFormulaBox sortedChars, 0, 0⟩

/-- Embedding of `StylesAndFormulas.is_x_axis_contained`
(`styles_and_formulas.py:657-661`). -/
def isXAxisContained (b1 b2 : Box) : Bool :=
  (b2.x ≤ b1.x ∧ b1.x2 ≤ b2.x2) ∨ (b1.x ≤ b2.x ∧ b2.x2 ≤ b1.x2)

/-- Embedding of `StylesAndFormulas.has_y_intersection`
(`styles_and_formulas.py:663-665`). -/
def hasYIntersection (b1 b2 : Box) : Bool :=
  ¬ (b1.y2 < b2.y ∨ b2.y2 < b1.y)

/-- Embedding of the while-loop of
`StylesAndFormulas.merge_overlapping_formulas` (`styles_and_formulas.py:616-655`)
with an explicit fuel.  One unit of fuel is spent per loop iteration; with
fuel equal to the list length the fuel never runs out before the natural
exit, since every recursive call shortens the list by one. -/
def mergeOverlappingGo : ℕ → List Composition → List Composition
  | _, [] => []
  | _, [c] => [c]
  | 0, l => l
  | fuel + 1, c1 :: c2 :: rest =>
    match c1, c2 with
    | .formula f1, .formula f2 =>
      if isXAxisContained f1.box f2.box ∧ hasYIntersection f1.box f2.box then
        mergeOverlappingGo fuel (.formula (mergeFormulas f1 f2) :: rest)
      else
        c1 :: mergeOverlappingGo fuel (c2 :: rest)
    | _, _ => c1 :: mergeOverlappingGo fuel (c2 :: rest)

/-- Embedding of `StylesAndFormulas.merge_overlapping_formulas` on one
paragraph's composition list. -/
def mergeOverlappingFormulas (comps : List Composition) : List Composition :=
  mergeOverlappingGo comps.length comps

/-- Embedding of Python's `re.match(r"^[0-9, ]+$", text)` used by
`is_translatable_formula`: nonempty and consisting of digits, commas and
spaces, where `$` also matches just before a single trailing newline. -/
def matchDigitsCommaSpace (text : List Char) : Bool :=
  let core := if text.getLast? = some '\n' then text.dropLast else text
  ¬ core.isEmpty ∧ core.all (fun c => c.isDigit ∨ c = ',' ∨ c = ' ')

/-- Embedding of `StylesAndFormulas.is_translatable_formula`
(`styles_and_formulas.py:474-479`): reject when `y_offset > 0.1` (note: NOT
the absolute value), otherwise match the digits/comma/space pattern. -/
def isTranslatableFormula (f : PdfFormula) : Bool :=
  let text := charsText f.pdf_character
  if (1 : ℚ) / 10 < f.y_offset then false
  else matchDigitsCommaSpace text

/-- Embedding of the per-composition body of
`StylesAndFormulas.process_translatable_formulas`
(`styles_and_formulas.py:146-169`): a translatable formula becomes an
ordinary text line made of the same characters. -/
def promoteOne (comp : Composition) : Composition :=
  match comp with
  | .formula f =>
    if isTranslatableFormula f then .line (mkLine f.pdf_character) else comp
  | _ => comp

/-- Embedding of `StylesAndFormulas.process_translatable_formulas` on one
paragraph's composition list. -/
def processTranslatableFormulas (comps : List Composition) : List Composition :=
  comps.map promoteOne

theorem charSeq_nil : charSeq [] = [] := rfl

theorem charSeq_cons (c : Composition) (l : List Composition) :
    charSeq (c :: l) = c.chars ++ charSeq l := by
  simp [charSeq]

theorem promoteOne_chars (comp : Composition) :
    (promoteOne comp).chars = comp.chars := by
  cases comp with
  | formula f =>
    rw [promoteOne]
    by_cases h : isTranslatableFormula f
    · rw [if_pos h]
      simp [Composition.chars, mkLine]
    · rw [if_neg h]
  | line l => rfl
  | character c => rfl
  | sameStyleCharacters s => rfl
  | sameStyleUnicodeCharacters u => rfl

theorem processTranslatable_charSeq (comps : List Composition) :
    charSeq (processTranslatableFormulas comps) = charSeq comps := by
  induction comps with
  | nil => rfl
  | cons c rest ih =>
    rw [processTranslatableFormulas, List.map_cons, charSeq_cons, charSeq_cons,
      promoteOne_chars]
    rw [processTranslatableFormulas] at ih
    rw [ih]

theorem mergeOverlappingGo_perm (fuel : ℕ) :
    ∀ l : List Composition,
      (charSeq (mergeOverlappingGo fuel l)).Perm (charSeq l) := by
  induction fuel with
  | zero =>
    intro l
    match l with
    | [] => exact List.Perm.refl _
    | [c] => exact List.Perm.refl _
    | c1 :: c2 :: rest => exact List.Perm.refl _
  | succ fuel ih =>
    intro l
    match l with
    | [] => exact List.Perm.refl _
    | [c] => exact List.Perm.refl _
    | c1 :: c2 :: rest =>
      cases c1 with
      | formula f1 =>
        cases c2 with
        | formula f2 =>
          rw [mergeOverlappingGo]
          by_cases hcond :
              (isXAxisContained f1.box f2.box ∧ hasYIntersection f1.box f2.box)
          · rw [if_pos hcond]
            refine (ih _).trans ?_
            rw [charSeq_cons, charSeq_cons, charSeq_cons]
            simp only [Composition.chars, mergeFormulas]
            rw [← List.append_assoc]
            exact List.Perm.append_right _
              (List.perm_insertionSort charKeyLE
                (f1.pdf_character ++ f2.pdf_character))
          · rw [if_neg hcond]
            rw [charSeq_cons, charSeq_cons]
            exact List.Perm.append_left _ (ih _)
        | line x =>
          rw [mergeOverlappingGo, charSeq_cons, charSeq_cons]
          · exact List.Perm.append_left _ (ih _)
          · intro a b h1 h2; simp at h1 h2
        | character x =>
          rw [mergeOverlappingGo, charSeq_cons, charSeq_cons]
          · exact List.Perm.append_left _ (ih _)
          · intro a b h1 h2; simp at h1 h2
        | sameStyleCharacters x =>
          rw [mergeOverlappingGo, charSeq_cons, charSeq_cons]
          · exact List.Perm.append_left _ (ih _)
          · intro a b h1 h2; simp at h1 h2
        | sameStyleUnicodeCharacters x =>
          rw [mergeOverlappingGo, charSeq_cons, charSeq_cons]
          · exact List.Perm.append_left _ (ih _)
          · intro a b h1 h2; simp at h1 h2
      | line x =>
        rw [mergeOverlappingGo, charSeq_cons, charSeq_cons]
        · exact List.Perm.append_left _ (ih _)
        · intro a b h1 h2; simp at h1 h2
      | character x =>
        rw [mergeOverlappingGo, charSeq_cons, charSeq_cons]
        · exact List.Perm.append_left _ (ih _)
        · intro a b h1 h2; simp at h1 h2
      | sameStyleCharacters x =>
        rw [mergeOverlappingGo, charSeq_cons, charSeq_cons]
        · exact List.Perm.append_left _ (ih _)
        · intro a b h1 h2; simp at h1 h2
      | sameStyleUnicodeCharacters x =>
        rw [mergeOverlappingGo, charSeq_cons, charSeq_cons]
        · exact List.Perm.append_left _ (ih _)
        · intro a b h1 h2; simp at h1 h2

/-- Flattening of the comma-split groups back into a character sequence:
each group contributes its characters followed by its separating comma. -/
def flattenGroups (gs : List (List PdfChar × Option PdfChar)) : List PdfChar :=
  gs.flatMap (fun g => g.1 ++ g.2.toList)

theorem splitByCommaGo_sublist (chars : List PdfChar) :
    ∀ (current : List PdfChar) (lvl : ℕ),
      (flattenGroups (splitByCommaGo chars current lvl)).Sublist
        (current ++ chars) := by
  induction chars with
  | nil =>
    intro current lvl
    rw [splitByCommaGo]
    by_cases he : current.isEmpty
    · rw [if_pos he]
      simp [flattenGroups]
    · rw [if_neg he]
      simp [flattenGroups]
  | cons c rest ih =>
    intro current lvl
    rw [splitByCommaGo]
    by_cases hlb : leftBrackets.contains c.char_unicode
    · rw [if_pos hlb]
      have := ih (current ++ [c]) (lvl + 1)
      rw [List.append_assoc] at this
      simpa using this
    · rw [if_neg hlb]
      by_cases hrb : rightBrackets.contains c.char_unicode
      · rw [if_pos hrb]
        have := ih (current ++ [c]) (lvl - 1)
        rw [List.append_assoc] at this
        simpa using this
      · rw [if_neg hrb]
        by_cases hcm : c.char_unicode = "," ∧ lvl = 0
        · rw [if_pos hcm]
          rw [flattenGroups, List.flatMap_append]
          by_cases he : current.isEmpty
          · rw [if_pos he]
            have hcur : current = [] := by
              cases current with
              | nil => rfl
              | cons a t => simp [List.isEmpty] at he
            subst hcur
            have := ih [] 0
            simp only [List.nil_append] at this ⊢
            exact List.Sublist.cons c (this.trans (by simp [flattenGroups]))
          · rw [if_neg he]
            have := ih [] 0
            simp only [List.nil_append] at this
            have hstep : (flattenGroups [(current, some c)] ++
                (splitByCommaGo rest [] 0).flatMap (fun g => g.1 ++ g.2.toList)).Sublist
                ((current ++ [c]) ++ rest) := by
              have h1 : flattenGroups [(current, some c)] = current ++ [c] := by
                simp [flattenGroups]
              rw [h1]
              exact this.append_left (current ++ [c])
            rw [List.append_assoc] at hstep
            simpa [flattenGroups] using hstep
        · rw [if_neg hcm]
          have := ih (current ++ [c]) lvl
          rw [List.append_assoc] at this
          simpa using this

theorem processCommaOne_sublist (comp : Composition) :
    (charSeq (processCommaOne comp)).Sublist comp.chars := by
  cases comp with
  | formula f =>
    rw [processCommaOne]
    by_cases hs : shouldSplitFormula f
    · rw [if_pos hs]
      have hgroups : ∀ gs : List (List PdfChar × Option PdfChar),
          (charSeq (gs.flatMap (fun g =>
            if g.1.isEmpty then []
            else
              Composition.formula (mkFormula g.1) ::
                (match g.2 with
                  | some comma => [Composition.line (mkLine [comma])]
                  | none => [])))).Sublist (flattenGroups gs) := by
        intro gs
        induction gs with
        | nil => simp [charSeq, flattenGroups]
        | cons g t iht =>
          rw [List.flatMap_cons, flattenGroups, List.flatMap_cons, charSeq,
            List.flatMap_append]
          rw [flattenGroups] at iht
          rw [charSeq] at iht
          refine List.Sublist.append ?_ iht
          by_cases hge : g.1.isEmpty
          · rw [if_pos hge]
            simp
          · rw [if_neg hge]
            cases hg2 : g.2 with
            | none =>
              simp [Composition.chars, mkFormula, charSeq]
            | some comma =>
              simp [Composition.chars, mkFormula, mkLine, charSeq]
      have hsplit := splitByCommaGo_sublist f.pdf_character [] 0
      simp only [List.nil_append] at hsplit
      exact (hgroups (splitFormulaByComma f)).trans hsplit
    · rw [if_neg hs]
      simp [charSeq, Composition.chars]
  | line l => simp [processCommaOne, charSeq, Composition.chars]
  | character c => simp [processCommaOne, charSeq, Composition.chars]
  | sameStyleCharacters s => simp [processCommaOne, charSeq, Composition.chars]
  | sameStyleUnicodeCharacters u => simp [processCommaOne, charSeq, Composition.chars]

theorem processCommaFormulas_sublist (comps : List Composition) :
    (charSeq (processCommaFormulas comps)).Sublist (charSeq comps) := by
  induction comps with
  | nil => simp [processCommaFormulas, charSeq]
  | cons c rest ih =>
    rw [processCommaFormulas, List.flatMap_cons, charSeq_cons]
    rw [charSeq, List.flatMap_append]
    refine List.Sublist.append ?_ ?_
    · have := processCommaOne_sublist c
      rw [charSeq] at this
      exact this
    · rw [processCommaFormulas] at ih
      rw [charSeq] at ih
      exact ih

/-- C4 (corrected).  What each Formula & Style Segmenter transformation
actually preserves of the paragraph's reading order: translatable-formula
promotion preserves the character sequence exactly; merging of overlapping
adjacent formulas preserves the multiset of characters but may reorder them
(the merged formula re-sorts its characters by `(y, x)`); comma-splitting
preserves the relative order but may drop top-level commas that follow an
empty group (leading or consecutive commas), so its output is a subsequence
of the input sequence. -/
theorem styles_formulas_reading_order_amended :
    (∀ comps : List Composition,
        charSeq (processTranslatableFormulas comps) = charSeq comps) ∧
      (∀ comps : List Composition,
        (charSeq (mergeOverlappingFormulas comps)).Perm (charSeq comps)) ∧
      ∀ comps : List Composition,
        (charSeq (processCommaFormulas comps)).Sublist (charSeq comps) :=
  ⟨processTranslatable_charSeq,
    fun comps => mergeOverlappingGo_perm comps.length comps,
    processCommaFormulas_sublist⟩

/-- Sample style for concrete counterexample inputs. -/
def cexStyle : PdfStyle := ⟨none, none, none⟩

/-- A narrow character sitting inside the x-range of `cexCharA`. -/
def cexCharB : PdfChar := ⟨"b", ⟨5, 0, 6, 1⟩, cexStyle, some 1, false, -1⟩

/-- A wide character whose x-range contains that of `cexCharB`. -/
def cexCharA : PdfChar := ⟨"a", ⟨0, 0, 10, 1⟩, cexStyle, some 1, false, -1⟩

/-- Comma characters and a Greek letter for the comma-splitting example. -/
def cexComma1 : PdfChar := ⟨",", ⟨0, 0, 1, 1⟩, cexStyle, some 1, false, -1⟩

def cexComma2 : PdfChar := ⟨",", ⟨1, 0, 2, 1⟩, cexStyle, some 1, false, -1⟩

def cexAlpha : PdfChar := ⟨"α", ⟨2, 0, 3, 1⟩, cexStyle, some 1, false, -1⟩

/-- Counterexample to C4 as stated.  Merging the two overlapping single-
character formulas `[b]` (inside) and `[a]` (containing) re-sorts the merged
characters by `(y, x)` and yields reading order `a, b` instead of the
original `b, a`; and comma-splitting the formula `", , α"` drops both
leading top-level commas, yielding `α` instead of `, , α`.  Either
transformation alone falsifies the claimed order preservation. -/
theorem styles_formulas_reading_order_counterexample :
    charSeq (mergeOverlappingFormulas
        [Composition.formula (mkFormula [cexCharB]),
          Composition.formula (mkFormula [cexCharA])]) ≠
      charSeq [Composition.formula (mkFormula [cexCharB]),
        Composition.formula (mkFormula [cexCharA])] ∧
    charSeq (processCommaFormulas
        [Composition.formula (mkFormula [cexComma1, cexComma2, cexAlpha])]) ≠
      charSeq [Composition.formula (mkFormula [cexComma1, cexComma2, cexAlpha])] := by
  with_unfolding_all decide

/-- The claim-side promotion predicate of C5, written from the (amended)
spec's words: characters solely digits, commas and spaces (nonempty, with
Python's `$` tolerating one trailing newline), and `y_offset` at most `0.1`
(only offsets strictly greater than `+0.1` block promotion). -/
def PromotionSpec (f : PdfFormula) : Prop :=
  f.y_offset ≤ 1 / 10 ∧
    (let text := charsText f.pdf_character
     let core := if text.getLast? = some '\n' then text.dropLast else text
     core ≠ [] ∧ ∀ c ∈ core, c.isDigit = true ∨ c = ',' ∨ c = ' ')

instance (f : PdfFormula) : Decidable (PromotionSpec f) := by
  unfold PromotionSpec
  infer_instance

theorem isTranslatable_iff (f : PdfFormula) :
    isTranslatableFormula f = true ↔ PromotionSpec f := by
  rw [isTranslatableFormula, PromotionSpec]
  by_cases hy : (1 : ℚ) / 10 < f.y_offset
  · rw [if_pos hy]
    constructor
    · intro h; cases h
    · rintro ⟨h1, -⟩; linarith
  · rw [if_neg hy]
    rw [matchDigitsCommaSpace]
    constructor
    · intro h
      refine ⟨le_of_not_lt hy, ?_, ?_⟩
      · intro hcore
        simp only [decide_eq_true_eq] at h
        rw [hcore] at h
        simp at h
      · intro c hc
        simp only [decide_eq_true_eq] at h
        have := h.2
        rw [List.all_eq_true] at this
        have := this c hc
        simpa using this
    · rintro ⟨-, hne, hall⟩
      simp only [decide_eq_true_eq]
      constructor
      · simpa [List.isEmpty_iff] using hne
      · rw [List.all_eq_true]
        intro c hc
        have := hall c hc
        simpa using this

/-- C5 (corrected).  A Formula composition is reclassified into an ordinary
text Line by the translatable-formula promotion pass if and only if its
characters consist solely of digits, spaces and commas (nonempty) AND its
`y_offset` is at most `+0.1`: only offsets strictly greater than `0.1` block
promotion, a negative `y_offset` of any magnitude does not.  A formula
failing this condition is left untouched as a Formula. -/
theorem translatable_formula_promotion_amended (f : PdfFormula) :
    (processTranslatableFormulas [Composition.formula f] =
        [Composition.line (mkLine f.pdf_character)] ↔ PromotionSpec f) ∧
      (¬ PromotionSpec f →
        processTranslatableFormulas [Composition.formula f] =
          [Composition.formula f]) := by
  have hmap : processTranslatableFormulas [Composition.formula f] =
      [promoteOne (Composition.formula f)] := rfl
  constructor
  · rw [hmap, promoteOne]
    by_cases ht : isTranslatableFormula f
    · rw [if_pos ht]
      exact ⟨fun _ => (isTranslatable_iff f).mp ht, fun _ => rfl⟩
    · rw [if_neg ht]
      constructor
      · intro h
        simp at h
      · intro hp
        exact absurd ((isTranslatable_iff f).mpr hp) ht
  · intro hp
    rw [hmap, promoteOne]
    rw [if_neg (fun ht => hp ((isTranslatable_iff f).mp ht))]

/-- A purely numeric one-character formula with a large NEGATIVE `y_offset`. -/
def cexNegOffsetFormula : PdfFormula :=
  ⟨[⟨"1", ⟨0, 0, 1, 1⟩, cexStyle, some 1, false, -1⟩], ⟨0, 0, 1, 1⟩, 0, -5⟩

/-- Counterexample to C5 as stated.  The claim requires `|y_offset| < 0.1`
for promotion; the code only rejects `y_offset > 0.1`, so this digit-only
formula with `y_offset = -5` IS promoted to an ordinary text line although
`|y_offset| = 5 ≥ 0.1`. -/
theorem translatable_formula_promotion_counterexample :
    processTranslatableFormulas [Composition.formula cexNegOffsetFormula] =
      [Composition.line (mkLine cexNegOffsetFormula.pdf_character)] ∧
      ¬ |cexNegOffsetFormula.y_offset| < 1 / 10 := by
  with_unfolding_all decide

/-- A non-numeric formula used as the C5 witness input. -/
def cexLetterFormula : PdfFormula := mkFormula [cexCharA]

/-- Witness for the C5 theorem at the concrete non-promotable formula
`"a"`: the pass leaves it untouched as a Formula. -/
theorem translatable_formula_promotion_amended_witness :
    ¬ PromotionSpec cexLetterFormula ∧
      processTranslatableFormulas [Composition.formula cexLetterFormula] =
        [Composition.formula cexLetterFormula] :=
  ⟨by with_unfolding_all decide,
    (translatable_formula_promotion_amended cexLetterFormula).2
      (by with_unfolding_all decide)⟩

end StylesAndFormulas

namespace ParagraphFinder

open IL

/-- Embedding of a layout region (`il_version_1.py:243`, `PageLayout`),
reduced to the fields the paragraph finder reads. -/
structure PageLayout where
  id : ℤ
  class_name : String
  box : Box
deriving DecidableEq, Repr

/-- Embedding of the `Layout` helper of `utils/layout_helper.py:47-50`. -/
structure Layout where
  id : ℤ
  name : String
deriving DecidableEq, Repr

/-- Fixed class priority of `ParagraphFinder._get_layout`
(`paragraph_finder.py:306-318`). -/
def layoutPriority : List String :=
  ["formula_caption", "isolate_formula", "table_footnote", "table_caption",
    "figure_caption", "table", "figure", "abandon", "plain text", "tiny text",
    "title"]

/-- Point-in-box test of `_get_layout` (`paragraph_finder.py:336-339`),
inclusive on all edges. -/
def boxContains (b : Box) (px py : ℚ) : Bool :=
  b.x ≤ px ∧ px ≤ b.x2 ∧ b.y ≤ py ∧ py ≤ b.y2

/-- Embedding of `ParagraphFinder._get_layout` (`paragraph_finder.py:279-350`)
at one anchor point: among the layouts whose box contains the anchor, the
Python dict keeps the LAST match per class name, and the first class present
in priority order wins. -/
def getLayoutAt (layouts : List PageLayout) (px py : ℚ) : Option Layout :=
  let matching := layouts.filter (fun l => boxContains l.box px py)
  (layoutPriority.filterMap (fun nm =>
      (matching.filter (fun l => l.class_name = nm)).getLast?)).head?.map
    (fun l => Layout.mk l.id l.class_name)

/-- Truth of the `layout is not None and layout.name == "isolate_formula"`
checks in `get_layout`. -/
def isIsolateFormulaOpt : Option Layout → Bool
  | some l => l.name = "isolate_formula"
  | none => false

/-- Embedding of `ParagraphFinder.get_layout` (`paragraph_finder.py:254-277`):
an `isolate_formula` hit at any of the three anchors (top-left, bottom-right,
middle, in that order) wins outright; otherwise middle, then top-left, then
bottom-right. -/
def getLayout (layouts : List PageLayout) (c : PdfChar) : Option Layout :=
  let tl := getLayoutAt layouts c.box.x c.box.y2
  let br := getLayoutAt layouts c.box.x2 c.box.y
  let md := getLayoutAt layouts ((c.box.x + c.box.x2) / 2) ((c.box.y + c.box.y2) / 2)
  if isIsolateFormulaOpt tl then tl
  else if isIsolateFormulaOpt br then br
  else if isIsolateFormulaOpt md then md
  else if md.isSome then md
  else if tl.isSome then tl
  else br

/-- Embedding of `ParagraphFinder.is_text_layout` (`paragraph_finder.py:244-252`). -/
def isTextLayout : Option Layout → Bool
  | some l =>
    ["plain text", "tiny text", "title", "abandon", "figure_caption",
      "table_caption"].contains l.name
  | none => false

/-- Embedding of `ParagraphFinder.is_isolated_formula`
(`paragraph_finder.py:123-129`). -/
def isIsolatedFormula (c : PdfChar) : Bool :=
  ["(cid:122)", "(cid:123)", "(cid:124)", "(cid:125)"].contains c.char_unicode

/-- Embedding of `Layout.is_newline` (`utils/layout_helper.py:52-81`): the
current character starts a new line when its top is below the previous
character's bottom or its right edge jumped far left (more than ten
character-widths); characters with unusable height never trigger it. -/
def isNewline (prevChar currChar : PdfChar) : Bool :=
  let charWidth := max (currChar.box.x2 - currChar.box.x)
    (prevChar.box.x2 - prevChar.box.x)
  let shouldNewLine : Bool :=
    currChar.box.y2 < prevChar.box.y ∨
      currChar.box.x2 < prevChar.box.x - charWidth * 10
  if shouldNewLine ∧
      (formularHeightIgnoreChar currChar ∨ formularHeightIgnoreChar prevChar) then
    false
  else shouldNewLine

/-- A character participates in paragraph grouping exactly when its layout
is text-like and it is not an isolated-formula glyph
(`paragraph_finder.py:144`, negated). -/
def keepChar (layouts : List PageLayout) (c : PdfChar) : Bool :=
  isTextLayout (getLayout layouts c) ∧ ¬ isIsolatedFormula c

/-- Loop state of `ParagraphFinder.create_paragraphs`
(`paragraph_finder.py:131-206`).  A paragraph is represented by its list of
line compositions; `cur` is the open paragraph (in the source it is the last
element of `paragraphs`, mutated in place), `curLine` the pending line, and
`skip` the characters destined for the page's residual list. -/
structure BuildState where
  paras : List (List PdfLine)
  cur : Option (List PdfLine)
  curLine : List PdfChar
  curLayout : Option Layout
  skip : List PdfChar

/-- Closing the pending line (`self.create_line(current_line_chars)`) into
the open paragraph, or into a fresh paragraph when none is open. -/
def closeLine (st : BuildState) : BuildState :=
  match st.cur with
  | none => { st with cur := some [mkLine st.curLine], curLine := [] }
  | some lines => { st with cur := some (lines ++ [mkLine st.curLine]), curLine := [] }

/-- Closing the open paragraph (`current_paragraph = None` after it was
already appended to `paragraphs`). -/
def closePara (st : BuildState) (newLayout : Option Layout) : BuildState :=
  { st with
    paras := st.paras ++ (match st.cur with | some p => [p] | none => []),
    cur := none,
    curLayout := newLayout }

/-- `current_layout is None or char_layout.id != current_layout.id`
(`paragraph_finder.py:165-167`); the char layout is text-like here, hence
present. -/
def layoutChanged (charLayout curLayout : Option Layout) : Bool :=
  match curLayout, charLayout with
  | none, _ => true
  | some cl, some nl => nl.id ≠ cl.id
  | some _, none => true

/-- New-line phase of the character loop (`paragraph_finder.py:148-162`):
when the pending line is nonempty and the new character starts a new line,
close the pending line. -/
def newlinePhase (st : BuildState) (c : PdfChar) : BuildState :=
  match st.curLine.getLast? with
  | some lastChar => if isNewline lastChar c then closeLine st else st
  | none => st

/-- The `current_line_chars and current_line_chars[-1].xobj_id !=
char.xobj_id` part of the new-paragraph condition (`paragraph_finder.py:168-171`). -/
def xobjMismatch (st : BuildState) (c : PdfChar) : Bool :=
  match st.curLine.getLast? with
  | some lastChar => lastChar.xobj_id ≠ c.xobj_id
  | none => false

/-- New-paragraph phase of the character loop (`paragraph_finder.py:164-187`):
on a region or XObject change, flush the pending line into the open (or a
fresh) paragraph and close the paragraph. -/
def paraPhase (st : BuildState) (c : PdfChar) (charLayout : Option Layout) :
    BuildState :=
  if layoutChanged charLayout st.curLayout || xobjMismatch st c then
    closePara (if st.curLine.isEmpty then st else closeLine st) charLayout
  else st

/-- One iteration of the character loop of `create_paragraphs`
(`paragraph_finder.py:142-189`). -/
def buildStep (layouts : List PageLayout) (st : BuildState) (c : PdfChar) :
    BuildState :=
  let charLayout := getLayout layouts c
  if ¬ isTextLayout charLayout ∨ isIsolatedFormula c then
    { st with skip := st.skip ++ [c] }
  else
    let st2 := paraPhase (newlinePhase st c) c charLayout
    { st2 with curLine := st2.curLine ++ [c] }

/-- Embedding of `ParagraphFinder.create_paragraphs`
(`paragraph_finder.py:131-206`): returns the paragraphs (as lists of line
compositions) and the residual character list stored back into
`page.pdf_character`. -/
def createParagraphs (layouts : List PageLayout) (chars : List PdfChar) :
    List (List PdfLine) × List PdfChar :=
  let final := chars.foldl (buildStep layouts) ⟨[], none, [], none, []⟩
  let final2 := if final.curLine.isEmpty then final else closeLine final
  (final2.paras ++ (match final2.cur with | some p => [p] | none => []),
    final2.skip)

/-- All characters of a built paragraph, in order. -/
def paraLineChars (p : List PdfLine) : List PdfChar :=
  p.flatMap (fun l => l.pdf_character)

/-- All characters of all built paragraphs, in order. -/
def parasChars (ps : List (List PdfLine)) : List PdfChar :=
  ps.flatMap paraLineChars

/-- Characters held by a build state: closed paragraphs, then the open
paragraph, then the pending line. -/
def stateChars (st : BuildState) : List PdfChar :=
  parasChars st.paras ++
    (match st.cur with | some p => paraLineChars p | none => []) ++ st.curLine

theorem closeLine_stateChars (st : BuildState) :
    stateChars (closeLine st) = stateChars st := by
  obtain ⟨paras, cur, curLine, curLayout, skip⟩ := st
  cases cur <;>
    simp [closeLine, stateChars, parasChars, paraLineChars, mkLine,
      List.flatMap_append, List.append_assoc]

theorem closeLine_skip (st : BuildState) : (closeLine st).skip = st.skip := by
  obtain ⟨paras, cur, curLine, curLayout, skip⟩ := st
  cases cur <;> simp [closeLine]

theorem closeLine_curLine (st : BuildState) : (closeLine st).curLine = [] := by
  obtain ⟨paras, cur, curLine, curLayout, skip⟩ := st
  cases cur <;> simp [closeLine]

theorem closePara_stateChars (st : BuildState) (nl : Option Layout) :
    stateChars (closePara st nl) = stateChars st := by
  obtain ⟨paras, cur, curLine, curLayout, skip⟩ := st
  cases cur <;>
    simp [closePara, stateChars, parasChars, paraLineChars,
      List.flatMap_append, List.append_assoc]

theorem closePara_skip (st : BuildState) (nl : Option Layout) :
    (closePara st nl).skip = st.skip := by
  obtain ⟨paras, cur, curLine, curLayout, skip⟩ := st
  cases cur <;> simp [closePara]

theorem stateChars_addChar (st : BuildState) (c : PdfChar) :
    stateChars { st with curLine := st.curLine ++ [c] } = stateChars st ++ [c] := by
  simp [stateChars, List.append_assoc]

theorem keepChar_not_drop (layouts : List PageLayout) (c : PdfChar)
    (hk : keepChar layouts c = true) :
    ¬ (¬ isTextLayout (getLayout layouts c) ∨ isIsolatedFormula c) := by
  rw [keepChar] at hk
  simp only [decide_eq_true_eq] at hk
  intro h
  rcases h with h | h
  · exact h hk.1
  · exact hk.2 h

theorem keepChar_drop (layouts : List PageLayout) (c : PdfChar)
    (hk : ¬ keepChar layouts c = true) :
    ¬ isTextLayout (getLayout layouts c) ∨ isIsolatedFormula c := by
  rw [keepChar] at hk
  simp only [decide_eq_true_eq, not_and, not_not] at hk
  by_cases ht : isTextLayout (getLayout layouts c) = true
  · exact Or.inr (hk ht)
  · exact Or.inl ht

theorem newlinePhase_stateChars (st : BuildState) (c : PdfChar) :
    stateChars (newlinePhase st c) = stateChars st := by
  rw [newlinePhase]
  rcases hl : st.curLine.getLast? with _ | lastChar
  · rfl
  · show stateChars (if isNewline lastChar c = true then closeLine st else st) =
      stateChars st
    by_cases hn : isNewline lastChar c = true
    · rw [if_pos hn]
      exact closeLine_stateChars st
    · rw [if_neg hn]

theorem newlinePhase_skip (st : BuildState) (c : PdfChar) :
    (newlinePhase st c).skip = st.skip := by
  rw [newlinePhase]
  rcases hl : st.curLine.getLast? with _ | lastChar
  · rfl
  · show (if isNewline lastChar c = true then closeLine st else st).skip = st.skip
    by_cases hn : isNewline lastChar c = true
    · rw [if_pos hn]
      exact closeLine_skip st
    · rw [if_neg hn]

theorem paraPhase_stateChars (st : BuildState) (c : PdfChar)
    (cl : Option Layout) : stateChars (paraPhase st c cl) = stateChars st := by
  rw [paraPhase]
  by_cases hcond : (layoutChanged cl st.curLayout || xobjMismatch st c) = true
  · rw [if_pos hcond]
    refine (closePara_stateChars _ _).trans ?_
    by_cases he : st.curLine.isEmpty = true
    · rw [if_pos he]
    · rw [if_neg he]
      exact closeLine_stateChars st
  · rw [if_neg hcond]

theorem paraPhase_skip (st : BuildState) (c : PdfChar) (cl : Option Layout) :
    (paraPhase st c cl).skip = st.skip := by
  rw [paraPhase]
  by_cases hcond : (layoutChanged cl st.curLayout || xobjMismatch st c) = true
  · rw [if_pos hcond]
    refine (closePara_skip _ _).trans ?_
    by_cases he : st.curLine.isEmpty = true
    · rw [if_pos he]
    · rw [if_neg he]
      exact closeLine_skip st
  · rw [if_neg hcond]

theorem buildStep_stateChars (layouts : List PageLayout) (st : BuildState)
    (c : PdfChar) :
    stateChars (buildStep layouts st c) =
      stateChars st ++ (if keepChar layouts c then [c] else []) := by
  by_cases hk : keepChar layouts c = true
  · rw [if_pos hk]
    rw [buildStep, if_neg (keepChar_not_drop layouts c hk)]
    rw [stateChars_addChar, paraPhase_stateChars, newlinePhase_stateChars]
  · rw [if_neg hk]
    rw [buildStep, if_pos (keepChar_drop layouts c hk)]
    simp [stateChars]

theorem buildStep_skip (layouts : List PageLayout) (st : BuildState)
    (c : PdfChar) :
    (buildStep layouts st c).skip =
      st.skip ++ (if keepChar layouts c then [] else [c]) := by
  by_cases hk : keepChar layouts c = true
  · rw [if_pos hk]
    rw [buildStep, if_neg (keepChar_not_drop layouts c hk)]
    show (paraPhase (newlinePhase st c) c (getLayout layouts c)).skip =
      st.skip ++ []
    rw [paraPhase_skip, newlinePhase_skip, List.append_nil]
  · rw [if_neg hk]
    rw [buildStep, if_pos (keepChar_drop layouts c hk)]

theorem foldl_build (layouts : List PageLayout) (chars : List PdfChar) :
    ∀ st : BuildState,
      stateChars (chars.foldl (buildStep layouts) st) =
          stateChars st ++ chars.filter (keepChar layouts) ∧
        (chars.foldl (buildStep layouts) st).skip =
          st.skip ++ chars.filter (fun c => ! keepChar layouts c) := by
  induction chars with
  | nil => intro st; simp
  | cons c rest ih =>
    intro st
    rw [List.foldl_cons]
    obtain ⟨h1, h2⟩ := ih (buildStep layouts st c)
    constructor
    · rw [h1, buildStep_stateChars]
      by_cases hk : keepChar layouts c = true <;>
        simp [hk, List.filter_cons, List.append_assoc]
    · rw [h2, buildStep_skip]
      by_cases hk : keepChar layouts c = true <;>
        simp [hk, List.filter_cons, List.append_assoc]

theorem result_chars (st : BuildState) (h : st.curLine = []) :
    parasChars (st.paras ++ (match st.cur with | some p => [p] | none => [])) =
      stateChars st := by
  obtain ⟨paras, cur, curLine, curLayout, skip⟩ := st
  simp only at h
  subst h
  cases cur <;>
    simp [stateChars, parasChars, paraLineChars, List.flatMap_append]

/-- C10 (confirmed).  `create_paragraphs` conserves characters: the page's
input character list is partitioned, in order, into the characters that end
up in the returned paragraphs' line compositions (exactly those in text-like
layout regions that are not isolated-formula glyphs) and the residual
characters stored back into the page's character list.  Both sides are
filters of the same input list, so every input character ends up in exactly
one of the two places, none duplicated, none dropped. -/
theorem create_paragraphs_conserves_characters (layouts : List PageLayout)
    (chars : List PdfChar) :
    parasChars (createParagraphs layouts chars).1 =
        chars.filter (keepChar layouts) ∧
      (createParagraphs layouts chars).2 =
        chars.filter (fun c => ! keepChar layouts c) := by
  obtain ⟨h1, h2⟩ := foldl_build layouts chars ⟨[], none, [], none, []⟩
  have hstate0 : stateChars ⟨[], none, [], none, []⟩ = [] := rfl
  rw [hstate0, List.nil_append] at h1
  simp only at h2
  rw [List.nil_append] at h2
  constructor
  · show parasChars
        (let final := chars.foldl (buildStep layouts) ⟨[], none, [], none, []⟩
         let final2 := if final.curLine.isEmpty then final else closeLine final
         (final2.paras ++ (match final2.cur with | some p => [p] | none => []),
          final2.skip)).1 = _
    simp only
    split
    · rename_i hemp
      rw [result_chars _ (by simpa [List.isEmpty_iff] using hemp)]
      exact h1
    · rw [result_chars _ (closeLine_curLine _), closeLine_stateChars]
      exact h1
  · show (let final := chars.foldl (buildStep layouts) ⟨[], none, [], none, []⟩
          let final2 := if final.curLine.isEmpty then final else closeLine final
          (final2.paras ++ (match final2.cur with | some p => [p] | none => []),
           final2.skip)).2 = _
    simp only
    split
    · exact h2
    · rw [closeLine_skip]
      exact h2

/-- Characters collected by `update_paragraph_data`
(`paragraph_finder.py:38-53`): line and formula compositions contribute
their characters, every other variant is skipped. -/
def paraChars (comps : List Composition) : List PdfChar :=
  comps.flatMap (fun comp =>
    match comp with
    | .line l => l.pdf_character
    | .formula f => f.pdf_character
    | _ => [])

/-- Embedding of `ParagraphFinder.update_paragraph_data`
(`paragraph_finder.py:34-75`) with `update_unicode=False`: recompute the
bounding box, vertical flag, owning XObject and first-line-indent flag from
the paragraph's characters; a paragraph without characters is left as is. -/
def updateParagraphData (p : PdfParagraph) : PdfParagraph :=
  if p.pdf_paragraph_composition.isEmpty then p
  else
    match paraChars p.pdf_paragraph_composition with
    | [] => p
    | c0 :: restChars =>
      let chars := c0 :: restChars
      let newBox : Box :=
        ⟨listMin (fun c => c.box.x) chars, listMin (fun c => c.box.y) chars,
          listMax (fun c => c.box.x2) chars, listMax (fun c => c.box.y2) chars⟩
      let fli : Bool :=
        match p.pdf_paragraph_composition.head? with
        | some (.line l) =>
          (match l.pdf_character.head? with
            | some ch0 => decide (1 < ch0.box.x - newBox.x)
            | none => false)
        | _ => false
      { p with
        box := newBox
        vertical := c0.vertical
        xobj_id := c0.xobj_id
        first_line_indent := fli }

/-- Concatenated text of a line, as used by
`process_independent_paragraphs`'s `"".join(...)`. -/
def lineText (l : PdfLine) : List Char :=
  charsText l.pdf_character

/-- Scanning for a run of at least 20 consecutive dots, the semantics of
`re.search(r"\.{20,}", text)` (`paragraph_finder.py:403`). -/
def hasDotRunFrom : List Char → ℕ → Bool
  | [], run => decide (20 ≤ run)
  | c :: rest, run =>
    if 20 ≤ run then true
    else if c = '.' then hasDotRunFrom rest (run + 1)
    else hasDotRunFrom rest 0

/-- True when the text contains 20 or more consecutive dots. -/
def hasDotLeader (s : List Char) : Bool :=
  hasDotRunFrom s 0

/-- The two configuration knobs read by `process_independent_paragraphs`
(`translation_config.split_short_lines` / `short_line_split_factor`). -/
structure SplitConfig where
  splitShortLines : Bool
  shortLineSplitFactor : ℚ
deriving DecidableEq, Repr

/-- The split condition tested on the PREVIOUS composition
(`paragraph_finder.py:392-431`): it must be a line, and either contain a
20-dot leader or (when enabled) be shorter than `median * factor`.  Both
branches perform the identical split, so they are folded into one test. -/
def splitCond (cfg : SplitConfig) (medianWidth : ℚ) (comp : Composition) : Bool :=
  match comp with
  | .line l =>
    hasDotLeader (lineText l) ||
      (cfg.splitShortLines &&
        decide (l.box.x2 - l.box.x < medianWidth * cfg.shortLineSplitFactor))
  | _ => false

/-- First index `j` (starting at 1, bounded by `len - 1`) whose PREVIOUS
composition `comps[j-1]` satisfies the split condition — the index at which
the inner while-loop of `process_independent_paragraphs` splits. -/
def firstSplitIndex (cfg : SplitConfig) (medianWidth : ℚ) :
    List Composition → Option ℕ
  | [] => none
  | [_] => none
  | c :: r1 :: rs =>
    if splitCond cfg medianWidth c then some 1
    else (firstSplitIndex cfg medianWidth (r1 :: rs)).map (· + 1)

/-- The fresh paragraph created at a split (`paragraph_finder.py:405-412`):
temporary zero box, empty unicode, then `update_paragraph_data`. -/
def newParagraphFrom (comps : List Composition) : PdfParagraph :=
  updateParagraphData ⟨comps, ⟨0, 0, 0, 0⟩, false, 0, "", false, none⟩

/-- Embedding of `ParagraphFinder.process_independent_paragraphs`
(`paragraph_finder.py:378-454`) with explicit fuel (one unit per outer-loop
iteration; the top-level wrapper supplies enough).  A paragraph with at most
one composition is skipped; otherwise the paragraph is cut at the first
index whose previous line matches, the head keeps `comps[:j]` (the matching
line INCLUDED), and the freshly created paragraph `comps[j:]` is processed
next, exactly like the source's `insert(i + 1, ...)` followed by `i += 1`. -/
def processIndependentGo (cfg : SplitConfig) (medianWidth : ℚ) :
    ℕ → List PdfParagraph → List PdfParagraph
  | _, [] => []
  | 0, ps => ps
  | fuel + 1, p :: rest =>
    if p.pdf_paragraph_composition.length ≤ 1 then
      p :: processIndependentGo cfg medianWidth fuel rest
    else
      match firstSplitIndex cfg medianWidth p.pdf_paragraph_composition with
      | none => p :: processIndependentGo cfg medianWidth fuel rest
      | some j =>
        updateParagraphData
            { p with pdf_paragraph_composition :=
                p.pdf_paragraph_composition.take j } ::
          processIndependentGo cfg medianWidth fuel
            (newParagraphFrom (p.pdf_paragraph_composition.drop j) :: rest)

/-- Embedding of `process_independent_paragraphs` with the sufficient fuel
`length + total composition count` (every iteration either consumes a whole
paragraph or strictly decreases the total composition count). -/
def processIndependent (cfg : SplitConfig) (medianWidth : ℚ)
    (paras : List PdfParagraph) : List PdfParagraph :=
  processIndependentGo cfg medianWidth
    (paras.length +
      (paras.map (fun p => p.pdf_paragraph_composition.length)).sum) paras

theorem firstSplitIndex_spec (cfg : SplitConfig) (mw : ℚ) :
    ∀ (comps : List Composition) (j : ℕ) (hj1 : 1 ≤ j)
      (hj2 : j < comps.length)
      (hcond : splitCond cfg mw (comps.get ⟨j - 1, by omega⟩) = true)
      (hmin : ∀ i (hi : i < j - 1),
        splitCond cfg mw (comps.get ⟨i, by omega⟩) = false),
      firstSplitIndex cfg mw comps = some j := by
  intro comps
  induction comps with
  | nil => intro j hj1 hj2 hcond hmin; simp at hj2
  | cons c rest ih =>
    intro j hj1 hj2 hcond hmin
    cases rest with
    | nil => simp at hj2; omega
    | cons r1 rs =>
      rw [firstSplitIndex]
      by_cases hj : j = 1
      · subst hj
        rw [if_pos (by simpa using hcond)]
      · have hj2' : 2 ≤ j := by omega
        have hc0 : splitCond cfg mw c = false := by
          have := hmin 0 (by omega)
          simpa using this
        rw [if_neg (by simp [hc0])]
        have hrec := ih (j - 1) (by omega)
          (by simp only [List.length_cons] at hj2 ⊢; omega)
          (by
            have hb1 : j - 1 < (c :: r1 :: rs).length := by
              simp only [List.length_cons] at hj2 ⊢; omega
            have hb2 : (j - 2) + 1 < (c :: r1 :: rs).length := by
              simp only [List.length_cons] at hj2 ⊢; omega
            have hcond' : splitCond cfg mw
                ((c :: r1 :: rs).get ⟨j - 1, hb1⟩) = true := hcond
            have hfin : (⟨j - 1, hb1⟩ : Fin (c :: r1 :: rs).length) =
                ⟨(j - 2) + 1, hb2⟩ := Fin.ext (by show j - 1 = (j - 2) + 1; omega)
            rw [hfin] at hcond'
            have hb3 : j - 1 - 1 < (r1 :: rs).length := by
              simp only [List.length_cons] at hj2 ⊢; omega
            show splitCond cfg mw ((r1 :: rs).get ⟨j - 1 - 1, hb3⟩) = true
            have hfin2 : (⟨j - 1 - 1, hb3⟩ : Fin (r1 :: rs).length) =
                ⟨j - 2, by simp only [List.length_cons] at hj2 ⊢; omega⟩ :=
              Fin.ext (by show j - 1 - 1 = j - 2; omega)
            rw [hfin2]
            exact hcond')
          (by
            intro i hi
            have hstep := hmin (i + 1) (by omega)
            exact hstep)
        rw [hrec]
        have hj1e : j - 1 + 1 = j := by omega
        simp [hj1e]

/-- C6 (corrected).  When a paragraph with more than one composition has its
FIRST matching dot-leader at composition `j - 1` (a line containing 20+
consecutive dots, no earlier composition matching), the paragraph is split
into two with the original paragraph keeping compositions `0 .. j-1` — the
dot-leader line INCLUDED — and the new paragraph starting at the line
immediately AFTER the dot-leader line; the new paragraph is then itself
re-scanned.  (The claim instead placed the dot-leader line at the start of
the new paragraph.) -/
theorem independent_split_after_dot_leader (cfg : SplitConfig) (mw : ℚ)
    (fuel : ℕ) (p : PdfParagraph) (rest : List PdfParagraph) (j : ℕ)
    (hj1 : 1 ≤ j) (hj2 : j < p.pdf_paragraph_composition.length)
    (hcond : splitCond cfg mw
      (p.pdf_paragraph_composition.get ⟨j - 1, by omega⟩) = true)
    (hmin : ∀ i (hi : i < j - 1),
      splitCond cfg mw (p.pdf_paragraph_composition.get ⟨i, by omega⟩) = false) :
    processIndependentGo cfg mw (fuel + 1) (p :: rest) =
      updateParagraphData
          { p with pdf_paragraph_composition :=
              p.pdf_paragraph_composition.take j } ::
        processIndependentGo cfg mw fuel
          (newParagraphFrom (p.pdf_paragraph_composition.drop j) :: rest) := by
  rw [processIndependentGo]
  rw [if_neg (by omega)]
  rw [firstSplitIndex_spec cfg mw p.pdf_paragraph_composition j hj1 hj2 hcond hmin]

/-- Style carried by the concrete paragraph-finder examples. -/
def pfStyle : PdfStyle := ⟨none, none, none⟩

/-- First line of the example paragraph. -/
def pfCharA : PdfChar := ⟨"A", ⟨0, 20, 5, 25⟩, pfStyle, some 1, false, -1⟩

/-- Dot-leader line: a run of 20 consecutive dots. -/
def pfCharDots : PdfChar :=
  ⟨"....................", ⟨0, 10, 50, 15⟩, pfStyle, some 1, false, -1⟩

/-- Last line of the example paragraph. -/
def pfCharB : PdfChar := ⟨"B", ⟨0, 0, 5, 5⟩, pfStyle, some 1, false, -1⟩

def pfLineA : Composition := .line (mkLine [pfCharA])

def pfLineDots : Composition := .line (mkLine [pfCharDots])

def pfLineB : Composition := .line (mkLine [pfCharB])

/-- A three-line paragraph whose middle line is a table-of-contents
dot-leader. -/
def pfPara : PdfParagraph :=
  ⟨[pfLineA, pfLineDots, pfLineB], ⟨0, 0, 50, 25⟩, false, -1, "", false, none⟩

/-- Short-line splitting disabled, as in the default configuration. -/
def pfCfg : SplitConfig := ⟨false, 1 / 2⟩

/-- Counterexample to C6 as stated.  The claim says the new paragraph starts
AT the dot-leader line (original keeps only the earlier lines, here `[A]`).
The code instead splits AFTER it: the original keeps `[A, dots]` and the new
paragraph is `[B]`. -/
theorem independent_split_claim_counterexample :
    (processIndependent pfCfg 0 [pfPara]).map
        (fun q => q.pdf_paragraph_composition) =
      [[pfLineA, pfLineDots], [pfLineB]] ∧
      hasDotLeader (lineText (mkLine [pfCharDots])) = true ∧
      (processIndependent pfCfg 0 [pfPara]).map
          (fun q => q.pdf_paragraph_composition) ≠
        [[pfLineA], [pfLineDots, pfLineB]] := by
  with_unfolding_all decide

/-- Witness for the C6 theorem at the concrete example paragraph: the first
matching previous line is at index 1 (the dot-leader), the split index is
`j = 2`, and the dot-leader line stays in the original paragraph. -/
theorem independent_split_after_dot_leader_witness :
    (1 ≤ 2 ∧ 2 < pfPara.pdf_paragraph_composition.length) ∧
      processIndependentGo pfCfg 0 4 [pfPara] =
        updateParagraphData
            { pfPara with pdf_paragraph_composition :=
                pfPara.pdf_paragraph_composition.take 2 } ::
          processIndependentGo pfCfg 0 3
            (newParagraphFrom (pfPara.pdf_paragraph_composition.drop 2) :: []) :=
  ⟨⟨by decide, by with_unfolding_all decide⟩,
    independent_split_after_dot_leader pfCfg 0 3 pfPara [] 2
      (by decide) (by with_unfolding_all decide)
      (by with_unfolding_all decide)
      (fun i hi => by
        have hi0 : i = 0 := by omega
        subst hi0
        show splitCond pfCfg 0
          (pfPara.pdf_paragraph_composition.get ⟨0, by decide⟩) = false
        with_unfolding_all decide)⟩

end ParagraphFinder

namespace ILTranslator

open IL

/-- Character class of `re.sub(r"[. 。…]{20,}", ".", translated_text)`
(`il_translator.py:559`). -/
def isDotClass (c : Char) : Bool :=
  c = '.' ∨ c = ' ' ∨ c = '。' ∨ c = '…'

/-- A maximal run of the dot class collapses to a single `'.'` when it has
at least 20 characters, and is kept verbatim otherwise. -/
def flushRun (run : List Char) : List Char :=
  if 20 ≤ run.length then ['.'] else run

/-- Embedding of `re.sub(r"[. 。…]{20,}", ".", s)`: the regex greedily
matches maximal runs of the class, so each maximal run of length at least 20
is replaced by one dot. -/
def collapseDotsGo : List Char → List Char → List Char
  | [], run => flushRun run
  | c :: rest, run =>
    if isDotClass c then collapseDotsGo rest (run ++ [c])
    else flushRun run ++ c :: collapseDotsGo rest []

def collapseDots (s : List Char) : List Char :=
  collapseDotsGo s []

/-- The part of `ILTranslator.TranslateInput` that `translate_paragraph`
itself reads (`il_translator.py:178-187`); placeholders and the base style
are only consumed by the collaborators, which are abstracted as oracles. -/
structure TranslateInput where
  unicode : List Char
deriving DecidableEq, Repr

/-- The style-fixup loop after parsing (`il_translator.py:571-579`):
unicode compositions without a style inherit the paragraph's base style. -/
def fillStyles (comps : List Composition) (paraStyle : Option PdfStyle) :
    List Composition :=
  comps.map (fun comp =>
    match comp with
    | .sameStyleUnicodeCharacters u =>
      (match u.pdf_style with
        | none => .sameStyleUnicodeCharacters ⟨u.unicode, paraStyle⟩
        | some _ => comp)
    | _ => comp)

/-- Embedding of `ILTranslator.translate_paragraph`
(`il_translator.py:527-585`).  The three fallible collaborators —
`get_translate_input`, the translate engine, and `parse_translate_output` —
are oracles returning `Except`; the surrounding `try/except Exception`
catches any error, logs it and returns, so the function is total: it returns
the paragraph as mutated so far, together with a flag telling whether an
exception was raised (and swallowed).  Mutation order follows the source:
`paragraph.unicode` is assigned BEFORE `parse_translate_output` runs, the
composition list only after it returns. -/
def translateParagraphCore {E : Type}
    (getInput : PdfParagraph → Except E (Option TranslateInput))
    (engine : List Char → Except E (List Char))
    (parseOut : TranslateInput → List Char → Except E (List Composition))
    (minTextLength : ℕ) (p : PdfParagraph) : PdfParagraph × Bool :=
  if p.vertical then (p, false)
  else
    match getInput p with
    | .error _ => (p, true)
    | .ok none => (p, false)
    | .ok (some ti) =>
      if ti.unicode.length < minTextLength then (p, false)
      else
        match engine ti.unicode with
        | .error _ => (p, true)
        | .ok translated =>
          if collapseDots translated = ti.unicode then (p, false)
          else
            match parseOut ti (collapseDots translated) with
            | .error _ =>
              ({ p with unicode := String.mk (collapseDots translated) }, true)
            | .ok comps =>
              ({ p with
                  unicode := String.mk (collapseDots translated),
                  pdf_paragraph_composition := fillStyles comps p.pdf_style },
                false)

theorem translateParagraphCore_spec {E : Type}
    (getInput : PdfParagraph → Except E (Option TranslateInput))
    (engine : List Char → Except E (List Char))
    (parseOut : TranslateInput → List Char → Except E (List Composition))
    (minTextLength : ℕ) (p : PdfParagraph) :
    ∀ res : PdfParagraph × Bool,
      translateParagraphCore getInput engine parseOut minTextLength p = res →
      res.2 = true →
      res.1.pdf_paragraph_composition = p.pdf_paragraph_composition := by
  unfold translateParagraphCore
  intro res hres htrue
  split at hres
  · subst hres; simp at htrue
  · split at hres
    · subst hres; rfl
    · subst hres; simp at htrue
    · split at hres
      · subst hres; simp at htrue
      · split at hres
        · subst hres; rfl
        · split at hres
          · subst hres; simp at htrue
          · split at hres
            · subst hres; rfl
            · subst hres; simp at htrue

/-- C7 (confirmed).  If any exception is raised while building the translate
input, calling the translate engine, or parsing the translator output,
`translate_paragraph` swallows it and returns normally (the embedding is a
total function), and the paragraph's original composition list is retained
unchanged. -/
theorem translate_paragraph_failure_preserves_compositions {E : Type}
    (getInput : PdfParagraph → Except E (Option TranslateInput))
    (engine : List Char → Except E (List Char))
    (parseOut : TranslateInput → List Char → Except E (List Composition))
    (minTextLength : ℕ) (p : PdfParagraph)
    (h : (translateParagraphCore getInput engine parseOut minTextLength p).2 =
      true) :
    (translateParagraphCore getInput engine parseOut minTextLength
        p).1.pdf_paragraph_composition = p.pdf_paragraph_composition :=
  translateParagraphCore_spec getInput engine parseOut minTextLength p _ rfl h

/-- A concrete paragraph for the C7 witness. -/
def tpPara : PdfParagraph :=
  ⟨[.sameStyleUnicodeCharacters ⟨"hello", none⟩], ⟨0, 0, 1, 1⟩, false, 0,
    "hello", false, none⟩

/-- Witness for the C7 theorem: with a `get_translate_input` oracle that
raises, the flag is set and the composition list is untouched. -/
theorem translate_paragraph_failure_preserves_compositions_witness :
    (translateParagraphCore (E := Unit) (fun _ => Except.error ())
          (fun s => Except.ok s) (fun _ _ => Except.ok []) 0 tpPara).2 = true ∧
      (translateParagraphCore (E := Unit) (fun _ => Except.error ())
          (fun s => Except.ok s) (fun _ _ => Except.ok [])
          0 tpPara).1.pdf_paragraph_composition =
        tpPara.pdf_paragraph_composition :=
  ⟨by with_unfolding_all decide,
    translate_paragraph_failure_preserves_compositions
      (fun _ => Except.error ()) (fun s => Except.ok s) (fun _ _ => Except.ok [])
      0 tpPara (by with_unfolding_all decide)⟩

end ILTranslator

namespace Typesetting

/-- Mutable state of the fit-search loop of `Typesetting.retypeset`
(`typesetting.py:674-746`): current scale, line spacing, the (relaxable)
line-spacing floor, the `expand_space_flag`, and whether the paragraph box
was actually replaced by the rightward expansion. -/
structure FitState where
  scale : ℚ
  lineSpacing : ℚ
  minLineSpacing : ℚ
  expandFlag : Bool
  boxExpanded : Bool
deriving DecidableEq, Repr

/-- Abstraction of `_layout_typesetting_units` and `get_max_right_space`:
`fit boxExpanded scale lineSpacing useEnglishLineBreak` returns the
`all_units_fit` flag together with the laid-out result, and `expandAvail`
tells whether `get_max_right_space` exceeds the box's right edge.  The loop's
control flow depends only on these observations, so the termination and
acceptance claims are proved for EVERY such oracle. -/
structure LayoutOracle (L : Type) where
  fit : Bool → ℚ → ℚ → Bool → Bool × L
  expandAvail : Bool

/-- Loop entry state (`typesetting.py:681-686`): scale 1.0, line spacing
1.5, spacing floor 1.4, no expansion attempted yet. -/
def initState : FitState := ⟨1, 3 / 2, 7 / 5, false, false⟩

/-- The spacing/scale adjustment of one failed iteration
(`typesetting.py:727-736`): lower the spacing by 0.1 while above the floor,
otherwise lower the scale (0.05 steps above 0.6, else 0.1 steps) and reset
the spacing to 1.5. -/
def adjustSpacingScale : FitState → FitState
  | ⟨sc, ls, mls, ef, bx⟩ =>
    if mls < ls then ⟨sc, ls - 1 / 10, mls, ef, bx⟩
    else if 3 / 5 < sc then ⟨sc - 1 / 20, 3 / 2, mls, ef, bx⟩
    else ⟨sc - 1 / 10, 3 / 2, mls, ef, bx⟩

/-- The one-time relaxation (`typesetting.py:738-741`): once the scale has
dropped below 0.7 while the spacing floor is still above 1.1, lower the
floor to 1.1 and restart at scale 1.0, spacing 1.5. -/
def relaxCheck : FitState → FitState
  | ⟨sc, ls, mls, ef, bx⟩ =>
    if sc < 7 / 10 ∧ (11 : ℚ) / 10 < mls then ⟨1, 3 / 2, 11 / 10, ef, bx⟩
    else ⟨sc, ls, mls, ef, bx⟩

/-- The `while scale >= min_scale` loop of `retypeset` with explicit fuel.
Returns `none` on fuel exhaustion (shown unreachable below), `some (some l)`
when some attempt fits (the compositions are assigned and the function
returns), and `some none` when the loop exits with `scale < 0.1` without
ever fitting. -/
def loopGo {L : Type} (o : LayoutOracle L) (eng : Bool) :
    ℕ → FitState → Option (Option L)
  | 0, _ => none
  | fuel + 1, st =>
    if st.scale < 1 / 10 then some none
    else if (o.fit st.boxExpanded st.scale st.lineSpacing eng).1 then
      some (some (o.fit st.boxExpanded st.scale st.lineSpacing eng).2)
    else if st.expandFlag = false then
      loopGo o eng fuel
        { st with
          expandFlag := true
          boxExpanded := st.boxExpanded || o.expandAvail }
    else
      loopGo o eng fuel (relaxCheck (adjustSpacingScale st))

/-- Embedding of `retypeset` including the single recursive retry with the
Latin no-break rule disabled (`typesetting.py:742-746`): run the loop with
`use_english_line_break=True`; if it exits without a fit, run it once more
with the rule disabled. -/
def retypesetResult {L : Type} (o : LayoutOracle L) (fuel : ℕ) :
    Option (Option L) :=
  match loopGo o true fuel initState with
  | none => none
  | some (some l) => some (some l)
  | some none => loopGo o false fuel initState

/-- The paragraph's final composition list after `render_paragraph` set it
to `[]` and called `retypeset`: it is only assigned when some attempt fits
(`some l`); otherwise the empty list remains (`none`). -/
def retypesetFinalComps {L : Type} (o : LayoutOracle L) (fuel : ℕ) :
    Option L :=
  match retypesetResult o fuel with
  | some (some l) => some l
  | _ => none

/-- Scale component of the termination measure, in 1/20 steps. -/
def scaleNat (q : ℚ) : ℕ := (⌈q * 20⌉).toNat

/-- Spacing component of the termination measure, in 1/10 steps. -/
def spacingNat (q : ℚ) : ℕ := (⌈q * 10⌉).toNat

/-- Termination measure of the fit-search loop: strictly decreases at every
failed iteration. -/
def measureN (st : FitState) : ℕ :=
  (if st.expandFlag then 0 else 1000) +
    (if (11 : ℚ) / 10 < st.minLineSpacing then 500 else 0) +
    16 * scaleNat st.scale + spacingNat st.lineSpacing

/-- States reachable by the loop: scale at most 1, spacing at most 1.5,
floor at least 1.1. -/
def StInv (st : FitState) : Prop :=
  st.scale ≤ 1 ∧ st.lineSpacing ≤ 3 / 2 ∧ (11 : ℚ) / 10 ≤ st.minLineSpacing

theorem scaleNat_le_20 (s : ℚ) (h : s ≤ 1) : scaleNat s ≤ 20 := by
  rw [scaleNat]
  have hc : ⌈s * 20⌉ ≤ 20 := by
    rw [Int.ceil_le]
    push_cast
    linarith
  omega

theorem spacingNat_le_15 (ls : ℚ) (h : ls ≤ 3 / 2) : spacingNat ls ≤ 15 := by
  rw [spacingNat]
  have hc : ⌈ls * 10⌉ ≤ 15 := by
    rw [Int.ceil_le]
    push_cast
    linarith
  omega

theorem spacingNat_dec (ls : ℚ) (h : (11 : ℚ) / 10 < ls) :
    spacingNat (ls - 1 / 10) + 1 ≤ spacingNat ls := by
  rw [spacingNat, spacingNat]
  have he : (ls - 1 / 10) * 10 = ls * 10 - 1 := by ring
  rw [he, Int.ceil_sub_one]
  have h11 : (11 : ℤ) < ⌈ls * 10⌉ := by
    rw [Int.lt_ceil]
    push_cast
    linarith
  omega

theorem scaleNat_dec05 (s : ℚ) (h : 1 / 10 ≤ s) :
    scaleNat (s - 1 / 20) + 1 ≤ scaleNat s := by
  rw [scaleNat, scaleNat]
  have he : (s - 1 / 20) * 20 = s * 20 - 1 := by ring
  rw [he, Int.ceil_sub_one]
  have h2 : (1 : ℤ) < ⌈s * 20⌉ := by
    rw [Int.lt_ceil]
    push_cast
    linarith
  omega

theorem scaleNat_dec10 (s : ℚ) (h : 1 / 10 ≤ s) :
    scaleNat (s - 1 / 10) + 1 ≤ scaleNat s := by
  rw [scaleNat, scaleNat]
  have he : (s - 1 / 10) * 20 = s * 20 - 2 := by ring
  rw [he]
  have he2 : (s * 20 - 2 : ℚ) = s * 20 - (2 : ℤ) := by push_cast; ring
  rw [he2, Int.ceil_sub_int]
  have h2 : (1 : ℤ) < ⌈s * 20⌉ := by
    rw [Int.lt_ceil]
    push_cast
    linarith
  omega

theorem scaleNat_one : scaleNat 1 = 20 := by
  have hc : ⌈(1 : ℚ) * 20⌉ = 20 := by norm_num
  rw [scaleNat, hc]
  rfl

theorem spacingNat_threehalf : spacingNat (3 / 2) = 15 := by
  have hc : ⌈(3 : ℚ) / 2 * 10⌉ = 15 := by norm_num
  rw [spacingNat, hc]
  rfl

theorem adjust_relax_inv (st : FitState) (hinv : StInv st) :
    StInv (relaxCheck (adjustSpacingScale st)) := by
  obtain ⟨sc, ls, mls, ef, bx⟩ := st
  obtain ⟨h1, h2, h3⟩ := hinv
  simp only [StInv] at h1 h2 h3 ⊢
  rw [adjustSpacingScale]
  by_cases hsp : mls < ls
  · rw [if_pos hsp, relaxCheck]
    by_cases hrx : sc < 7 / 10 ∧ (11 : ℚ) / 10 < mls
    · rw [if_pos hrx]
      refine ⟨by norm_num, by norm_num, by norm_num⟩
    · rw [if_neg hrx]
      exact ⟨h1, by linarith, h3⟩
  · rw [if_neg hsp]
    by_cases hsc6 : 3 / 5 < sc
    · rw [if_pos hsc6, relaxCheck]
      by_cases hrx : sc - 1 / 20 < 7 / 10 ∧ (11 : ℚ) / 10 < mls
      · rw [if_pos hrx]
        refine ⟨by norm_num, by norm_num, by norm_num⟩
      · rw [if_neg hrx]
        exact ⟨by linarith, by norm_num, h3⟩
    · rw [if_neg hsc6, relaxCheck]
      by_cases hrx : sc - 1 / 10 < 7 / 10 ∧ (11 : ℚ) / 10 < mls
      · rw [if_pos hrx]
        refine ⟨by norm_num, by norm_num, by norm_num⟩
      · rw [if_neg hrx]
        exact ⟨by linarith, by norm_num, h3⟩

theorem step_measure_lt (st : FitState) (hinv : StInv st)
    (hsc : 1 / 10 ≤ st.scale) (hexp : st.expandFlag = true) :
    measureN (relaxCheck (adjustSpacingScale st)) < measureN st := by
  obtain ⟨sc, ls, mls, ef, bx⟩ := st
  obtain ⟨h1, h2, h3⟩ := hinv
  simp only at h1 h2 h3 hsc hexp
  subst hexp
  have hsc20 : scaleNat sc ≤ 20 := scaleNat_le_20 sc h1
  have hls15 : spacingNat ls ≤ 15 := spacingNat_le_15 ls h2
  rw [adjustSpacingScale]
  by_cases hsp : mls < ls
  · rw [if_pos hsp, relaxCheck]
    have hdecs := spacingNat_dec ls (by linarith)
    by_cases hrx : sc < 7 / 10 ∧ (11 : ℚ) / 10 < mls
    · rw [if_pos hrx]
      rw [measureN, measureN]
      simp only [scaleNat_one, spacingNat_threehalf, if_pos rfl]
      rw [if_neg (show ¬ ((11 : ℚ) / 10 < 11 / 10) by norm_num),
        if_pos hrx.2]
      omega
    · rw [if_neg hrx]
      rw [measureN, measureN]
      simp only [if_pos rfl]
      omega
  · rw [if_neg hsp]
    by_cases hsc6 : 3 / 5 < sc
    · rw [if_pos hsc6, relaxCheck]
      have hdecs := scaleNat_dec05 sc hsc
      by_cases hrx : sc - 1 / 20 < 7 / 10 ∧ (11 : ℚ) / 10 < mls
      · rw [if_pos hrx]
        rw [measureN, measureN]
        simp only [scaleNat_one, spacingNat_threehalf, if_pos rfl]
        rw [if_neg (show ¬ ((11 : ℚ) / 10 < 11 / 10) by norm_num),
          if_pos hrx.2]
        omega
      · rw [if_neg hrx]
        rw [measureN, measureN]
        simp only [if_pos rfl, spacingNat_threehalf]
        omega
    · rw [if_neg hsc6, relaxCheck]
      have hdecs := scaleNat_dec10 sc hsc
      by_cases hrx : sc - 1 / 10 < 7 / 10 ∧ (11 : ℚ) / 10 < mls
      · rw [if_pos hrx]
        rw [measureN, measureN]
        simp only [scaleNat_one, spacingNat_threehalf, if_pos rfl]
        rw [if_neg (show ¬ ((11 : ℚ) / 10 < 11 / 10) by norm_num),
          if_pos hrx.2]
        omega
      · rw [if_neg hrx]
        rw [measureN, measureN]
        simp only [if_pos rfl, spacingNat_threehalf]
        omega

theorem expand_measure (st : FitState) (hexp : st.expandFlag = false)
    (av : Bool) :
    measureN { st with expandFlag := true, boxExpanded := av } + 1000 =
      measureN st := by
  obtain ⟨sc, ls, mls, ef, bx⟩ := st
  simp only at hexp
  subst hexp
  rw [measureN, measureN]
  simp only [Bool.false_eq_true, if_false, if_true]
  ring

theorem loopGo_total {L : Type} (o : LayoutOracle L) (eng : Bool) :
    ∀ (fuel : ℕ) (st : FitState), StInv st → measureN st < fuel →
      loopGo o eng fuel st ≠ none := by
  intro fuel
  induction fuel with
  | zero => intro st _ hm; omega
  | succ fuel ih =>
    intro st hinv hm
    rw [loopGo]
    by_cases hlow : st.scale < 1 / 10
    · rw [if_pos hlow]; simp
    · rw [if_neg hlow]
      by_cases hfit : (o.fit st.boxExpanded st.scale st.lineSpacing eng).1 = true
      · rw [if_pos hfit]; simp
      · rw [if_neg hfit]
        by_cases hexp : st.expandFlag = false
        · rw [if_pos hexp]
          apply ih
          · exact hinv
          · have := expand_measure st hexp (st.boxExpanded || o.expandAvail)
            omega
        · rw [if_neg hexp]
          apply ih
          · exact adjust_relax_inv st hinv
          · have := step_measure_lt st hinv (le_of_not_lt hlow)
              (by revert hexp; cases st.expandFlag <;> simp)
            omega

theorem initState_inv : StInv initState := by
  rw [StInv, initState]
  refine ⟨by norm_num, by norm_num, by norm_num⟩

theorem initState_measure : measureN initState < 2000 := by
  rw [initState, measureN]
  simp only [scaleNat_one, spacingNat_threehalf]
  rw [if_neg (by simp), if_pos (by norm_num)]
  omega

/-- C3 (confirmed).  For every layout oracle (hence every paragraph, box and
unit list), the retypeset fit search — spacing reduction to its floor, scale
reduction toward 0.1, the one-time relaxation that resets the scale to 1.0
with floor 1.1, and the single recursive retry with the Latin no-break rule
disabled — terminates: 2000 iterations of fuel are never exhausted, the
search always reaches a genuine exit (a fitting layout or the final
scale-below-minimum exit) in both passes. -/
theorem retypeset_terminates {L : Type} (o : LayoutOracle L) :
    retypesetResult o 2000 ≠ none := by
  have h1 := loopGo_total o true 2000 initState initState_inv initState_measure
  have h2 := loopGo_total o false 2000 initState initState_inv initState_measure
  rw [retypesetResult]
  rcases hr : loopGo o true 2000 initState with _ | r
  · exact absurd hr h1
  · rcases r with _ | l
    · simpa using h2
    · simp

theorem loopGo_nofit {L : Type} (o : LayoutOracle L) (eng : Bool)
    (h : ∀ e s ls eng2, (o.fit e s ls eng2).1 = false) :
    ∀ (fuel : ℕ) (st : FitState) (l : L),
      loopGo o eng fuel st ≠ some (some l) := by
  intro fuel
  induction fuel with
  | zero => intro st l; simp [loopGo]
  | succ fuel ih =>
    intro st l
    rw [loopGo]
    by_cases hlow : st.scale < 1 / 10
    · rw [if_pos hlow]; simp
    · rw [if_neg hlow]
      rw [if_neg (by rw [h]; simp)]
      by_cases hexp : st.expandFlag = false
      · rw [if_pos hexp]; exact ih _ _
      · rw [if_neg hexp]; exact ih _ _

theorem loopGo_fit_from_oracle {L : Type} (o : LayoutOracle L) (eng : Bool) :
    ∀ (fuel : ℕ) (st : FitState) (l : L),
      loopGo o eng fuel st = some (some l) →
      ∃ e s ls, o.fit e s ls eng = (true, l) := by
  intro fuel
  induction fuel with
  | zero => intro st l hc; simp [loopGo] at hc
  | succ fuel ih =>
    intro st l hc
    rw [loopGo] at hc
    by_cases hlow : st.scale < 1 / 10
    · rw [if_pos hlow] at hc; simp at hc
    · rw [if_neg hlow] at hc
      by_cases hfit : (o.fit st.boxExpanded st.scale st.lineSpacing eng).1 = true
      · rw [if_pos hfit] at hc
        refine ⟨st.boxExpanded, st.scale, st.lineSpacing, ?_⟩
        have hl : (o.fit st.boxExpanded st.scale st.lineSpacing eng).2 = l := by
          simpa using hc
        rw [Prod.ext_iff]
        exact ⟨hfit, hl⟩
      · rw [if_neg hfit] at hc
        by_cases hexp : st.expandFlag = false
        · rw [if_pos hexp] at hc; exact ih _ _ hc
        · rw [if_neg hexp] at hc; exact ih _ _ hc

/-- C2 (corrected).  When no attempted combination of box expansion,
line-spacing reduction, scale reduction and the no-break retry fits, the
retypeset operation does NOT keep the last attempted layout: the paragraph's
composition list — set to `[]` by `render_paragraph` before the fit search —
is left EMPTY (no rendered content), though no exception is raised.
Conversely, whenever a final composition list is produced, it comes from an
attempt that the layout reported as fitting. -/
theorem retypeset_no_fit_leaves_no_content {L : Type} (o : LayoutOracle L)
    (fuel : ℕ) :
    ((∀ e s ls eng, (o.fit e s ls eng).1 = false) →
        retypesetFinalComps o fuel = none) ∧
      ∀ l : L, retypesetFinalComps o fuel = some l →
        ∃ e s ls eng, o.fit e s ls eng = (true, l) := by
  constructor
  · intro h
    rw [retypesetFinalComps, retypesetResult]
    rcases hr : loopGo o true fuel initState with _ | r
    · simp
    · rcases r with _ | l
      · rcases hr2 : loopGo o false fuel initState with _ | r2
        · simp
        · rcases r2 with _ | l2
          · simp
          · exact absurd hr2 (loopGo_nofit o false h fuel initState l2)
      · exact absurd hr (loopGo_nofit o true h fuel initState l)
  · intro l hl
    rw [retypesetFinalComps, retypesetResult] at hl
    rcases hr : loopGo o true fuel initState with _ | r
    · rw [hr] at hl; simp at hl
    · rcases r with _ | l1
      · rw [hr] at hl
        simp only at hl
        rcases hr2 : loopGo o false fuel initState with _ | r2
        · rw [hr2] at hl; simp at hl
        · rcases r2 with _ | l2
          · rw [hr2] at hl; simp at hl
          · rw [hr2] at hl
            simp only [Option.some.injEq] at hl
            subst hl
            obtain ⟨e, s, ls, hfit⟩ :=
              loopGo_fit_from_oracle o false fuel initState l2 hr2
            exact ⟨e, s, ls, false, hfit⟩
      · rw [hr] at hl
        simp only [Option.some.injEq] at hl
        subst hl
        obtain ⟨e, s, ls, hfit⟩ :=
          loopGo_fit_from_oracle o true fuel initState l1 hr
        exact ⟨e, s, ls, true, hfit⟩

/-- An oracle on which no layout attempt ever fits. -/
def constFalseOracle : LayoutOracle ℕ := ⟨fun _ _ _ _ => (false, 0), false⟩

/-- Counterexample to C2 as stated.  On a paragraph where no attempted
combination fits (every layout reports overflow), the claim says the last
attempted (overflowing) layout is still accepted as the paragraph's final
compositions.  In the code the composition list set to `[]` by
`render_paragraph` is never reassigned: the full search (both passes) exits
without a fit and the paragraph ends with NO rendered content. -/
theorem retypeset_overflow_claim_counterexample :
    retypesetFinalComps constFalseOracle 2000 = none ∧
      retypesetResult constFalseOracle 2000 = some none := by
  have hno : ∀ e s ls eng2, ((constFalseOracle).fit e s ls eng2).1 = false :=
    fun _ _ _ _ => rfl
  have h1 := loopGo_total constFalseOracle true 2000 initState
    initState_inv initState_measure
  have h2 := loopGo_total constFalseOracle false 2000 initState
    initState_inv initState_measure
  have hsn1 : loopGo constFalseOracle true 2000 initState = some none := by
    rcases hr : loopGo constFalseOracle true 2000 initState with _ | r
    · exact absurd hr h1
    · rcases r with _ | l
      · rfl
      · exact absurd hr (loopGo_nofit constFalseOracle true hno 2000 initState l)
  have hsn2 : loopGo constFalseOracle false 2000 initState = some none := by
    rcases hr : loopGo constFalseOracle false 2000 initState with _ | r
    · exact absurd hr h2
    · rcases r with _ | l
      · rfl
      · exact absurd hr (loopGo_nofit constFalseOracle false hno 2000 initState l)
  constructor
  · rw [retypesetFinalComps, retypesetResult, hsn1, hsn2]
  · rw [retypesetResult, hsn1, hsn2]

/-- Witness for the C2 theorem at the concrete never-fitting oracle. -/
theorem retypeset_no_fit_leaves_no_content_witness :
    (∀ e s ls eng, ((constFalseOracle).fit e s ls eng).1 = false) ∧
      retypesetFinalComps constFalseOracle 2 = none :=
  ⟨fun _ _ _ _ => rfl,
    (retypeset_no_fit_leaves_no_content constFalseOracle 2).1
      (fun _ _ _ _ => rfl)⟩

end Typesetting

/-!  # XmlConv: document serialization round trip (C9)

The document types below are translated from
`babeldoc/document_il/il_version_1.py` (field for field, Python `float`
as `ℚ`, `X | None` as `Option`). The serializers themselves
(`XMLConverter.to_xml` / `from_xml` via xsdata, `to_json` via orjson)
live in external libraries whose code is not part of this repository, so
they are modelled from the spec: `to_xml` renders a dataclass as an
element whose name is the class's `Meta.name`, whose attributes are the
`type="Attribute"` fields (absent when `None`) and whose children are
the `type="Element"` fields; `from_xml` parses that shape back;
`to_json` renders the dataclass as a JSON object with one key per
Python field, sorted (`OPT_SORT_KEYS`), `None` as `null`; the JSON
parser direction is likewise modelled from the spec's round-trip
sentence (the repository itself never reads JSON back). -/

namespace XmlConv

/-- Modelled from the spec: a typed XML attribute value. -/
inductive AVal where
  | abool (v : Bool)
  | aint (v : ℤ)
  | arat (v : ℚ)
  | astr (v : String)
  | aqlist (v : List ℚ)

/-- Modelled from the spec: an XML element — tag name, one slot per
declared attribute (`none` = attribute omitted), one slot per declared
child field holding its occurrences in document order. -/
inductive Element where
  | el (name : String) (attrs : List (String × Option AVal))
      (children : List (String × List Element))

/-- Modelled from the spec: a JSON value. -/
inductive Json where
  | null
  | jb (v : Bool)
  | ji (v : ℤ)
  | jq (v : ℚ)
  | js (v : String)
  | arr (vs : List Json)
  | obj (fields : List (String × Json))

def avBool : AVal → Option Bool
  | .abool b => some b
  | _ => none

def avInt : AVal → Option ℤ
  | .aint n => some n
  | _ => none

def avRat : AVal → Option ℚ
  | .arat q => some q
  | _ => none

def avStr : AVal → Option String
  | .astr s => some s
  | _ => none

def avQList : AVal → Option (List ℚ)
  | .aqlist l => some l
  | _ => none

/-- Decode an optional attribute slot. -/
def attrOpt {α : Type} (dec : AVal → Option α) : Option AVal → Option (Option α)
  | none => some none
  | some v => (dec v).map some

/-- Decode a required attribute slot. -/
def attrReq {α : Type} (dec : AVal → Option α) : Option AVal → Option α
  | none => none
  | some v => dec v

/-- Decode an optional (0-or-1 occurrence) child slot. -/
def childOpt {α : Type} (dec : Element → Option α) : List Element → Option (Option α)
  | [] => some none
  | [e] => (dec e).map some
  | _ => none

/-- Decode every item of a list, failing if any item fails. -/
def decodeList {σ α : Type} (dec : σ → Option α) : List σ → Option (List α)
  | [] => some []
  | s :: ss => do
      let a ← dec s
      let rest ← decodeList dec ss
      some (a :: rest)

theorem attrOpt_map {α : Type} (dec : AVal → Option α) (enc : α → AVal)
    (h : ∀ a, dec (enc a) = some a) (o : Option α) :
    attrOpt dec (o.map enc) = some o := by
  cases o <;> simp [attrOpt, h]

theorem attrReq_enc {α : Type} (dec : AVal → Option α) (enc : α → AVal)
    (h : ∀ a, dec (enc a) = some a) (a : α) :
    attrReq dec (some (enc a)) = some a := by
  simp [attrReq, h]

theorem childOpt_map {α : Type} (dec : Element → Option α) (enc : α → Element)
    (h : ∀ a, dec (enc a) = some a) (o : Option α) :
    childOpt dec (o.map enc).toList = some o := by
  cases o <;> simp [childOpt, h]

theorem decodeList_map {σ α : Type} (dec : σ → Option α) (enc : α → σ)
    (h : ∀ a, dec (enc a) = some a) (l : List α) :
    decodeList dec (l.map enc) = some l := by
  induction l with
  | nil => rfl
  | cons a l ih => simp [decodeList, h, ih]

/-- Decode an optional JSON object value (`null` = Python `None`). -/
def jsonOpt {α : Type} (dec : Json → Option α) : Json → Option (Option α)
  | .null => some none
  | j => (dec j).map some

def jBool : Json → Option Bool
  | .jb b => some b
  | _ => none

def jInt : Json → Option ℤ
  | .ji n => some n
  | _ => none

def jRat : Json → Option ℚ
  | .jq q => some q
  | _ => none

def jStr : Json → Option String
  | .js s => some s
  | _ => none

def jQList : Json → Option (List ℚ)
  | .arr vs => decodeList jRat vs
  | _ => none

/-- Encode an optional field into JSON (`None` becomes `null`). -/
def jsonOfOpt {α : Type} (enc : α → Json) : Option α → Json
  | none => .null
  | some a => enc a

theorem jsonOpt_map {α : Type} (dec : Json → Option α) (enc : α → Json)
    (h : ∀ a, dec (enc a) = some a) (hnn : ∀ a, enc a ≠ .null) (o : Option α) :
    jsonOpt dec (jsonOfOpt enc o) = some o := by
  cases o with
  | none => rfl
  | some a =>
    have h1 := h a
    have h2 := hnn a
    show jsonOpt dec (enc a) = some (some a)
    cases henc : enc a with
    | null => exact absurd henc h2
    | jb v => rw [henc] at h1; simp [jsonOpt, h1]
    | ji v => rw [henc] at h1; simp [jsonOpt, h1]
    | jq v => rw [henc] at h1; simp [jsonOpt, h1]
    | js v => rw [henc] at h1; simp [jsonOpt, h1]
    | arr v => rw [henc] at h1; simp [jsonOpt, h1]
    | obj v => rw [henc] at h1; simp [jsonOpt, h1]

theorem jQList_map (l : List ℚ) : jQList (.arr (l.map .jq)) = some l := by
  rw [jQList]
  exact decodeList_map jRat Json.jq (fun _ => rfl) l

structure BaseOperations where
  value : String

structure Box where
  x : Option ℚ
  y : Option ℚ
  x2 : Option ℚ
  y2 : Option ℚ

structure GraphicState where
  linewidth : Option ℚ
  dash : List ℚ
  flatness : Option ℚ
  intent : Option String
  linecap : Option ℤ
  linejoin : Option ℤ
  miterlimit : Option ℚ
  ncolor : List ℚ
  scolor : List ℚ
  stroking_color_space_name : Option String
  non_stroking_color_space_name : Option String
  passthrough_per_char_instruction : Option String

/-- Modelled from the spec: render `Box` as its `Meta.name` element with
its four attributes. -/
def boxToElement (b : Box) : Element :=
  .el "box"
    [("x", b.x.map .arat), ("y", b.y.map .arat),
      ("x2", b.x2.map .arat), ("y2", b.y2.map .arat)] []

/-- Modelled from the spec: parse a `box` element back. -/
def boxFromElement : Element → Option Box
  | .el "box" [("x", ax), ("y", ay), ("x2", ax2), ("y2", ay2)] [] => do
      let x ← attrOpt avRat ax
      let y ← attrOpt avRat ay
      let x2 ← attrOpt avRat ax2
      let y2 ← attrOpt avRat ay2
      some ⟨x, y, x2, y2⟩
  | _ => none

theorem boxFromElement_toElement (b : Box) :
    boxFromElement (boxToElement b) = some b := by
  obtain ⟨x, y, x2, y2⟩ := b
  simp [boxToElement, boxFromElement,
    attrOpt_map avRat AVal.arat (fun _ => rfl)]

/-- Modelled from the spec: render `Box` as a JSON object, keys sorted. -/
def boxToJson (b : Box) : Json :=
  .obj [("x", jsonOfOpt .jq b.x), ("x2", jsonOfOpt .jq b.x2),
    ("y", jsonOfOpt .jq b.y), ("y2", jsonOfOpt .jq b.y2)]

/-- Modelled from the spec: parse the JSON object form of `Box` back. -/
def boxFromJson : Json → Option Box
  | .obj [("x", jx), ("x2", jx2), ("y", jy), ("y2", jy2)] => do
      let x ← jsonOpt jRat jx
      let x2 ← jsonOpt jRat jx2
      let y ← jsonOpt jRat jy
      let y2 ← jsonOpt jRat jy2
      some ⟨x, y, x2, y2⟩
  | _ => none

theorem boxFromJson_toJson (b : Box) : boxFromJson (boxToJson b) = some b := by
  obtain ⟨x, y, x2, y2⟩ := b
  simp [boxToJson, boxFromJson,
    jsonOpt_map jRat Json.jq (fun _ => rfl) (fun _ => by simp)]

theorem attrRat_rt (o : Option ℚ) : attrOpt avRat (o.map .arat) = some o :=
  attrOpt_map avRat AVal.arat (fun _ => rfl) o

theorem attrInt_rt (o : Option ℤ) : attrOpt avInt (o.map .aint) = some o :=
  attrOpt_map avInt AVal.aint (fun _ => rfl) o

theorem attrStr_rt (o : Option String) : attrOpt avStr (o.map .astr) = some o :=
  attrOpt_map avStr AVal.astr (fun _ => rfl) o

theorem attrBool_rt (o : Option Bool) : attrOpt avBool (o.map .abool) = some o :=
  attrOpt_map avBool AVal.abool (fun _ => rfl) o

theorem attrQList_rt (l : List ℚ) : attrReq avQList (some (.aqlist l)) = some l :=
  attrReq_enc avQList AVal.aqlist (fun _ => rfl) l

theorem attrStrReq_rt (s : String) : attrReq avStr (some (.astr s)) = some s :=
  attrReq_enc avStr AVal.astr (fun _ => rfl) s

theorem jsonRat_rt (o : Option ℚ) : jsonOpt jRat (jsonOfOpt .jq o) = some o :=
  jsonOpt_map jRat Json.jq (fun _ => rfl) (fun _ => by simp) o

theorem jsonInt_rt (o : Option ℤ) : jsonOpt jInt (jsonOfOpt .ji o) = some o :=
  jsonOpt_map jInt Json.ji (fun _ => rfl) (fun _ => by simp) o

theorem jsonStr_rt (o : Option String) : jsonOpt jStr (jsonOfOpt .js o) = some o :=
  jsonOpt_map jStr Json.js (fun _ => rfl) (fun _ => by simp) o

theorem jsonBool_rt (o : Option Bool) : jsonOpt jBool (jsonOfOpt .jb o) = some o :=
  jsonOpt_map jBool Json.jb (fun _ => rfl) (fun _ => by simp) o

/-- Modelled from the spec: the `baseOperations` element carries the raw
content stream text. -/
def baseOperationsToElement (b : BaseOperations) : Element :=
  .el "baseOperations" [("value", some (.astr b.value))] []

def baseOperationsFromElement : Element → Option BaseOperations
  | .el "baseOperations" [("value", av)] [] => do
      let v ← attrReq avStr av
      some ⟨v⟩
  | _ => none

theorem baseOperationsFromElement_toElement (b : BaseOperations) :
    baseOperationsFromElement (baseOperationsToElement b) = some b := by
  obtain ⟨v⟩ := b
  simp [baseOperationsToElement, baseOperationsFromElement, attrStrReq_rt]

def baseOperationsToJson (b : BaseOperations) : Json :=
  .obj [("value", .js b.value)]

def baseOperationsFromJson : Json → Option BaseOperations
  | .obj [("value", jv)] => do
      let v ← jStr jv
      some ⟨v⟩
  | _ => none

theorem baseOperationsFromJson_toJson (b : BaseOperations) :
    baseOperationsFromJson (baseOperationsToJson b) = some b := by
  obtain ⟨v⟩ := b
  simp [baseOperationsToJson, baseOperationsFromJson, jStr]

/-- Look up a serialized attribute by name (`none` = omitted). -/
def getAttr (n : String) (attrs : List (String × Option AVal)) : Option AVal :=
  match attrs.find? fun p => p.1 == n with
  | some p => p.2
  | none => none

/-- Look up a child slot by name (absent = no occurrences). -/
def getChild (n : String) (children : List (String × List Element)) :
    List Element :=
  match children.find? fun p => p.1 == n with
  | some p => p.2
  | none => []

/-- Look up a JSON object field by key. -/
def getField (n : String) (fields : List (String × Json)) : Option Json :=
  (fields.find? fun p => p.1 == n).map Prod.snd

/-- Decode a JSON field that orjson always emits. -/
def jsonField {α : Type} (dec : Json → Option α) : Option Json → Option α
  | some j => dec j
  | none => none

/-- Modelled from the spec: `graphicState` renders its twelve attributes
in declared order (camelCase serialized names). -/
def graphicStateToElement (g : GraphicState) : Element :=
  .el "graphicState"
    [("linewidth", g.linewidth.map .arat), ("dash", some (.aqlist g.dash)),
      ("flatness", g.flatness.map .arat), ("intent", g.intent.map .astr),
      ("linecap", g.linecap.map .aint), ("linejoin", g.linejoin.map .aint),
      ("miterlimit", g.miterlimit.map .arat), ("ncolor", some (.aqlist g.ncolor)),
      ("scolor", some (.aqlist g.scolor)),
      ("strokingColorSpaceName", g.stroking_color_space_name.map .astr),
      ("nonStrokingColorSpaceName", g.non_stroking_color_space_name.map .astr),
      ("passthroughPerCharInstruction",
        g.passthrough_per_char_instruction.map .astr)] []

def graphicStateFromElement : Element → Option GraphicState
  | .el n attrs [] =>
      if n = "graphicState" then do
        let linewidth ← attrOpt avRat (getAttr "linewidth" attrs)
        let dash ← attrReq avQList (getAttr "dash" attrs)
        let flatness ← attrOpt avRat (getAttr "flatness" attrs)
        let intent ← attrOpt avStr (getAttr "intent" attrs)
        let linecap ← attrOpt avInt (getAttr "linecap" attrs)
        let linejoin ← attrOpt avInt (getAttr "linejoin" attrs)
        let miterlimit ← attrOpt avRat (getAttr "miterlimit" attrs)
        let ncolor ← attrReq avQList (getAttr "ncolor" attrs)
        let scolor ← attrReq avQList (getAttr "scolor" attrs)
        let scsn ← attrOpt avStr (getAttr "strokingColorSpaceName" attrs)
        let nscsn ← attrOpt avStr (getAttr "nonStrokingColorSpaceName" attrs)
        let ppci ← attrOpt avStr
          (getAttr "passthroughPerCharInstruction" attrs)
        some ⟨linewidth, dash, flatness, intent, linecap, linejoin, miterlimit,
          ncolor, scolor, scsn, nscsn, ppci⟩
      else none
  | _ => none

theorem graphicStateFromElement_toElement (g : GraphicState) :
    graphicStateFromElement (graphicStateToElement g) = some g := by
  obtain ⟨f1, f2, f3, f4, f5, f6, f7, f8, f9, f10, f11, f12⟩ := g
  simp [graphicStateToElement, graphicStateFromElement, getAttr, List.find?,
    attrRat_rt, attrInt_rt, attrStr_rt, attrQList_rt]

/-- Modelled from the spec: the JSON object of `GraphicState`, keys
sorted alphabetically. -/
def graphicStateToJson (g : GraphicState) : Json :=
  .obj [("dash", .arr (g.dash.map .jq)), ("flatness", jsonOfOpt .jq g.flatness),
    ("intent", jsonOfOpt .js g.intent), ("linecap", jsonOfOpt .ji g.linecap),
    ("linejoin", jsonOfOpt .ji g.linejoin),
    ("linewidth", jsonOfOpt .jq g.linewidth),
    ("miterlimit", jsonOfOpt .jq g.miterlimit),
    ("ncolor", .arr (g.ncolor.map .jq)),
    ("non_stroking_color_space_name",
      jsonOfOpt .js g.non_stroking_color_space_name),
    ("passthrough_per_char_instruction",
      jsonOfOpt .js g.passthrough_per_char_instruction),
    ("scolor", .arr (g.scolor.map .jq)),
    ("stroking_color_space_name", jsonOfOpt .js g.stroking_color_space_name)]

def graphicStateFromJson : Json → Option GraphicState
  | .obj fs => do
      let dash ← jsonField jQList (getField "dash" fs)
      let flatness ← jsonField (jsonOpt jRat) (getField "flatness" fs)
      let intent ← jsonField (jsonOpt jStr) (getField "intent" fs)
      let linecap ← jsonField (jsonOpt jInt) (getField "linecap" fs)
      let linejoin ← jsonField (jsonOpt jInt) (getField "linejoin" fs)
      let linewidth ← jsonField (jsonOpt jRat) (getField "linewidth" fs)
      let miterlimit ← jsonField (jsonOpt jRat) (getField "miterlimit" fs)
      let ncolor ← jsonField jQList (getField "ncolor" fs)
      let nscsn ← jsonField (jsonOpt jStr)
        (getField "non_stroking_color_space_name" fs)
      let ppci ← jsonField (jsonOpt jStr)
        (getField "passthrough_per_char_instruction" fs)
      let scolor ← jsonField jQList (getField "scolor" fs)
      let scsn ← jsonField (jsonOpt jStr)
        (getField "stroking_color_space_name" fs)
      some ⟨linewidth, dash, flatness, intent, linecap, linejoin, miterlimit,
        ncolor, scolor, scsn, nscsn, ppci⟩
  | _ => none

theorem graphicStateFromJson_toJson (g : GraphicState) :
    graphicStateFromJson (graphicStateToJson g) = some g := by
  obtain ⟨f1, f2, f3, f4, f5, f6, f7, f8, f9, f10, f11, f12⟩ := g
  simp [graphicStateToJson, graphicStateFromJson, getField, List.find?,
    jsonField, jsonRat_rt, jsonInt_rt, jsonStr_rt, jQList_map]

structure PdfFont where
  name : Option String
  font_id : Option String
  xref_id : Option ℤ
  encoding_length : Option ℤ
  bold : Option Bool
  italic : Option Bool
  monospace : Option Bool
  serif : Option Bool
  ascent : Option ℚ
  descent : Option ℚ

structure Cropbox where
  box : Option Box

structure Mediabox where
  box : Option Box

structure PageLayout where
  box : Option Box
  id : Option ℤ
  conf : Option ℚ
  class_name : Option String

structure PdfFigure where
  box : Option Box

structure PdfRectangle where
  box : Option Box
  graphic_state : Option GraphicState
  debug_info : Option Bool

structure PdfStyle where
  graphic_state : Option GraphicState
  font_id : Option String
  font_size : Option ℚ

structure PdfXobject where
  box : Option Box
  pdf_font : List PdfFont
  base_operations : Option BaseOperations
  xobj_id : Option ℤ
  xref_id : Option ℤ

structure PdfCharacter where
  pdf_style : Option PdfStyle
  box : Option Box
  vertical : Option Bool
  scale : Option ℚ
  pdf_character_id : Option ℤ
  char_unicode : Option String
  advance : Option ℚ
  xobj_id : Option ℤ
  debug_info : Option Bool

structure PdfSameStyleUnicodeCharacters where
  pdf_style : Option PdfStyle
  unicode : Option String
  debug_info : Option Bool

structure PdfFormula where
  box : Option Box
  pdf_character : List PdfCharacter
  x_offset : Option ℚ
  y_offset : Option ℚ

structure PdfLine where
  box : Option Box
  pdf_character : List PdfCharacter

structure PdfSameStyleCharacters where
  box : Option Box
  pdf_style : Option PdfStyle
  pdf_character : List PdfCharacter

structure PdfParagraphComposition where
  pdf_line : Option PdfLine
  pdf_formula : Option PdfFormula
  pdf_same_style_characters : Option PdfSameStyleCharacters
  pdf_character : Option PdfCharacter
  pdf_same_style_unicode_characters : Option PdfSameStyleUnicodeCharacters

structure PdfParagraph where
  box : Option Box
  pdf_style : Option PdfStyle
  pdf_paragraph_composition : List PdfParagraphComposition
  xobj_id : Option ℤ
  unicode : Option String
  scale : Option ℚ
  vertical : Option Bool
  first_line_indent : Option Bool
  debug_id : Option String

structure Page where
  mediabox : Option Mediabox
  cropbox : Option Cropbox
  pdf_xobject : List PdfXobject
  page_layout : List PageLayout
  pdf_rectangle : List PdfRectangle
  pdf_font : List PdfFont
  pdf_paragraph : List PdfParagraph
  pdf_figure : List PdfFigure
  pdf_character : List PdfCharacter
  base_operations : Option BaseOperations
  page_number : Option ℤ
  unit : Option String

structure Document where
  page : List Page
  total_pages : Option ℤ

def pdfFontToElement (f : PdfFont) : Element :=
  .el "pdfFont"
    [("name", f.name.map .astr), ("fontId", f.font_id.map .astr),
      ("xrefId", f.xref_id.map .aint),
      ("encodingLength", f.encoding_length.map .aint),
      ("bold", f.bold.map .abool), ("italic", f.italic.map .abool),
      ("monospace", f.monospace.map .abool), ("serif", f.serif.map .abool),
      ("ascent", f.ascent.map .arat), ("descent", f.descent.map .arat)] []

def pdfFontFromElement : Element → Option PdfFont
  | .el n attrs [] =>
      if n = "pdfFont" then do
        let name ← attrOpt avStr (getAttr "name" attrs)
        let font_id ← attrOpt avStr (getAttr "fontId" attrs)
        let xref_id ← attrOpt avInt (getAttr "xrefId" attrs)
        let encoding_length ← attrOpt avInt (getAttr "encodingLength" attrs)
        let bold ← attrOpt avBool (getAttr "bold" attrs)
        let italic ← attrOpt avBool (getAttr "italic" attrs)
        let monospace ← attrOpt avBool (getAttr "monospace" attrs)
        let serif ← attrOpt avBool (getAttr "serif" attrs)
        let ascent ← attrOpt avRat (getAttr "ascent" attrs)
        let descent ← attrOpt avRat (getAttr "descent" attrs)
        some ⟨name, font_id, xref_id, encoding_length, bold, italic,
          monospace, serif, ascent, descent⟩
      else none
  | _ => none

theorem pdfFontFromElement_toElement (f : PdfFont) :
    pdfFontFromElement (pdfFontToElement f) = some f := by
  obtain ⟨f1, f2, f3, f4, f5, f6, f7, f8, f9, f10⟩ := f
  simp [pdfFontToElement, pdfFontFromElement, getAttr, List.find?,
    attrRat_rt, attrInt_rt, attrStr_rt, attrBool_rt]

def pdfFontToJson (f : PdfFont) : Json :=
  .obj [("ascent", jsonOfOpt .jq f.ascent), ("bold", jsonOfOpt .jb f.bold),
    ("descent", jsonOfOpt .jq f.descent),
    ("encoding_length", jsonOfOpt .ji f.encoding_length),
    ("font_id", jsonOfOpt .js f.font_id), ("italic", jsonOfOpt .jb f.italic),
    ("monospace", jsonOfOpt .jb f.monospace),
    ("name", jsonOfOpt .js f.name), ("serif", jsonOfOpt .jb f.serif),
    ("xref_id", jsonOfOpt .ji f.xref_id)]

def pdfFontFromJson : Json → Option PdfFont
  | .obj fs => do
      let ascent ← jsonField (jsonOpt jRat) (getField "ascent" fs)
      let bold ← jsonField (jsonOpt jBool) (getField "bold" fs)
      let descent ← jsonField (jsonOpt jRat) (getField "descent" fs)
      let encoding_length ← jsonField (jsonOpt jInt)
        (getField "encoding_length" fs)
      let font_id ← jsonField (jsonOpt jStr) (getField "font_id" fs)
      let italic ← jsonField (jsonOpt jBool) (getField "italic" fs)
      let monospace ← jsonField (jsonOpt jBool) (getField "monospace" fs)
      let name ← jsonField (jsonOpt jStr) (getField "name" fs)
      let serif ← jsonField (jsonOpt jBool) (getField "serif" fs)
      let xref_id ← jsonField (jsonOpt jInt) (getField "xref_id" fs)
      some ⟨name, font_id, xref_id, encoding_length, bold, italic,
        monospace, serif, ascent, descent⟩
  | _ => none

theorem pdfFontFromJson_toJson (f : PdfFont) :
    pdfFontFromJson (pdfFontToJson f) = some f := by
  obtain ⟨f1, f2, f3, f4, f5, f6, f7, f8, f9, f10⟩ := f
  simp [pdfFontToJson, pdfFontFromJson, getField, List.find?, jsonField,
    jsonRat_rt, jsonInt_rt, jsonStr_rt, jsonBool_rt]

def cropboxToElement (c : Cropbox) : Element :=
  .el "cropbox" [] [("box", (c.box.map boxToElement).toList)]

def cropboxFromElement : Element → Option Cropbox
  | .el n [] children =>
      if n = "cropbox" then do
        let box ← childOpt boxFromElement (getChild "box" children)
        some ⟨box⟩
      else none
  | _ => none

theorem cropboxFromElement_toElement (c : Cropbox) :
    cropboxFromElement (cropboxToElement c) = some c := by
  obtain ⟨b⟩ := c
  simp [cropboxToElement, cropboxFromElement, getChild, List.find?,
    childOpt_map boxFromElement boxToElement boxFromElement_toElement]

def cropboxToJson (c : Cropbox) : Json :=
  .obj [("box", jsonOfOpt boxToJson c.box)]

def cropboxFromJson : Json → Option Cropbox
  | .obj fs => do
      let box ← jsonField (jsonOpt boxFromJson) (getField "box" fs)
      some ⟨box⟩
  | _ => none

theorem boxJsonOpt_rt (o : Option Box) :
    jsonOpt boxFromJson (jsonOfOpt boxToJson o) = some o :=
  jsonOpt_map boxFromJson boxToJson boxFromJson_toJson
    (fun _ => by simp [boxToJson]) o

theorem cropboxFromJson_toJson (c : Cropbox) :
    cropboxFromJson (cropboxToJson c) = some c := by
  obtain ⟨b⟩ := c
  simp [cropboxToJson, cropboxFromJson, getField, List.find?, jsonField,
    boxJsonOpt_rt]

def mediaboxToElement (m : Mediabox) : Element :=
  .el "mediabox" [] [("box", (m.box.map boxToElement).toList)]

def mediaboxFromElement : Element → Option Mediabox
  | .el n [] children =>
      if n = "mediabox" then do
        let box ← childOpt boxFromElement (getChild "box" children)
        some ⟨box⟩
      else none
  | _ => none

theorem mediaboxFromElement_toElement (m : Mediabox) :
    mediaboxFromElement (mediaboxToElement m) = some m := by
  obtain ⟨b⟩ := m
  simp [mediaboxToElement, mediaboxFromElement, getChild, List.find?,
    childOpt_map boxFromElement boxToElement boxFromElement_toElement]

def mediaboxToJson (m : Mediabox) : Json :=
  .obj [("box", jsonOfOpt boxToJson m.box)]

def mediaboxFromJson : Json → Option Mediabox
  | .obj fs => do
      let box ← jsonField (jsonOpt boxFromJson) (getField "box" fs)
      some ⟨box⟩
  | _ => none

theorem mediaboxFromJson_toJson (m : Mediabox) :
    mediaboxFromJson (mediaboxToJson m) = some m := by
  obtain ⟨b⟩ := m
  simp [mediaboxToJson, mediaboxFromJson, getField, List.find?, jsonField,
    boxJsonOpt_rt]

def pageLayoutToElement (p : PageLayout) : Element :=
  .el "pageLayout"
    [("id", p.id.map .aint), ("conf", p.conf.map .arat),
      ("class_name", p.class_name.map .astr)]
    [("box", (p.box.map boxToElement).toList)]

def pageLayoutFromElement : Element → Option PageLayout
  | .el n attrs children =>
      if n = "pageLayout" then do
        let box ← childOpt boxFromElement (getChild "box" children)
        let id ← attrOpt avInt (getAttr "id" attrs)
        let conf ← attrOpt avRat (getAttr "conf" attrs)
        let class_name ← attrOpt avStr (getAttr "class_name" attrs)
        some ⟨box, id, conf, class_name⟩
      else none

theorem pageLayoutFromElement_toElement (p : PageLayout) :
    pageLayoutFromElement (pageLayoutToElement p) = some p := by
  obtain ⟨f1, f2, f3, f4⟩ := p
  simp [pageLayoutToElement, pageLayoutFromElement, getAttr, getChild,
    List.find?, attrRat_rt, attrInt_rt, attrStr_rt,
    childOpt_map boxFromElement boxToElement boxFromElement_toElement]

def pageLayoutToJson (p : PageLayout) : Json :=
  .obj [("box", jsonOfOpt boxToJson p.box),
    ("class_name", jsonOfOpt .js p.class_name),
    ("conf", jsonOfOpt .jq p.conf), ("id", jsonOfOpt .ji p.id)]

def pageLayoutFromJson : Json → Option PageLayout
  | .obj fs => do
      let box ← jsonField (jsonOpt boxFromJson) (getField "box" fs)
      let class_name ← jsonField (jsonOpt jStr) (getField "class_name" fs)
      let conf ← jsonField (jsonOpt jRat) (getField "conf" fs)
      let id ← jsonField (jsonOpt jInt) (getField "id" fs)
      some ⟨box, id, conf, class_name⟩
  | _ => none

theorem pageLayoutFromJson_toJson (p : PageLayout) :
    pageLayoutFromJson (pageLayoutToJson p) = some p := by
  obtain ⟨f1, f2, f3, f4⟩ := p
  simp [pageLayoutToJson, pageLayoutFromJson, getField, List.find?,
    jsonField, jsonRat_rt, jsonInt_rt, jsonStr_rt, boxJsonOpt_rt]

def pdfFigureToElement (p : PdfFigure) : Element :=
  .el "pdfFigure" [] [("box", (p.box.map boxToElement).toList)]

def pdfFigureFromElement : Element → Option PdfFigure
  | .el n [] children =>
      if n = "pdfFigure" then do
        let box ← childOpt boxFromElement (getChild "box" children)
        some ⟨box⟩
      else none
  | _ => none

theorem pdfFigureFromElement_toElement (p : PdfFigure) :
    pdfFigureFromElement (pdfFigureToElement p) = some p := by
  obtain ⟨b⟩ := p
  simp [pdfFigureToElement, pdfFigureFromElement, getChild, List.find?,
    childOpt_map boxFromElement boxToElement boxFromElement_toElement]

def pdfFigureToJson (p : PdfFigure) : Json :=
  .obj [("box", jsonOfOpt boxToJson p.box)]

def pdfFigureFromJson : Json → Option PdfFigure
  | .obj fs => do
      let box ← jsonField (jsonOpt boxFromJson) (getField "box" fs)
      some ⟨box⟩
  | _ => none

theorem pdfFigureFromJson_toJson (p : PdfFigure) :
    pdfFigureFromJson (pdfFigureToJson p) = some p := by
  obtain ⟨b⟩ := p
  simp [pdfFigureToJson, pdfFigureFromJson, getField, List.find?, jsonField,
    boxJsonOpt_rt]

theorem graphicStateJsonOpt_rt (o : Option GraphicState) :
    jsonOpt graphicStateFromJson (jsonOfOpt graphicStateToJson o) = some o :=
  jsonOpt_map graphicStateFromJson graphicStateToJson
    graphicStateFromJson_toJson (fun _ => by simp [graphicStateToJson]) o

def pdfRectangleToElement (p : PdfRectangle) : Element :=
  .el "pdfRectangle" [("debug_info", p.debug_info.map .abool)]
    [("box", (p.box.map boxToElement).toList),
      ("graphicState", (p.graphic_state.map graphicStateToElement).toList)]

def pdfRectangleFromElement : Element → Option PdfRectangle
  | .el n attrs children =>
      if n = "pdfRectangle" then do
        let box ← childOpt boxFromElement (getChild "box" children)
        let graphic_state ← childOpt graphicStateFromElement
          (getChild "graphicState" children)
        let debug_info ← attrOpt avBool (getAttr "debug_info" attrs)
        some ⟨box, graphic_state, debug_info⟩
      else none

theorem pdfRectangleFromElement_toElement (p : PdfRectangle) :
    pdfRectangleFromElement (pdfRectangleToElement p) = some p := by
  obtain ⟨f1, f2, f3⟩ := p
  simp [pdfRectangleToElement, pdfRectangleFromElement, getAttr, getChild,
    List.find?, attrBool_rt,
    childOpt_map boxFromElement boxToElement boxFromElement_toElement,
    childOpt_map graphicStateFromElement graphicStateToElement
      graphicStateFromElement_toElement]

def pdfRectangleToJson (p : PdfRectangle) : Json :=
  .obj [("box", jsonOfOpt boxToJson p.box),
    ("debug_info", jsonOfOpt .jb p.debug_info),
    ("graphic_state", jsonOfOpt graphicStateToJson p.graphic_state)]

def pdfRectangleFromJson : Json → Option PdfRectangle
  | .obj fs => do
      let box ← jsonField (jsonOpt boxFromJson) (getField "box" fs)
      let debug_info ← jsonField (jsonOpt jBool) (getField "debug_info" fs)
      let graphic_state ← jsonField (jsonOpt graphicStateFromJson)
        (getField "graphic_state" fs)
      some ⟨box, graphic_state, debug_info⟩
  | _ => none

theorem pdfRectangleFromJson_toJson (p : PdfRectangle) :
    pdfRectangleFromJson (pdfRectangleToJson p) = some p := by
  obtain ⟨f1, f2, f3⟩ := p
  simp [pdfRectangleToJson, pdfRectangleFromJson, getField, List.find?,
    jsonField, jsonBool_rt, boxJsonOpt_rt, graphicStateJsonOpt_rt]

def pdfStyleToElement (p : PdfStyle) : Element :=
  .el "pdfStyle"
    [("font_id", p.font_id.map .astr), ("font_size", p.font_size.map .arat)]
    [("graphicState", (p.graphic_state.map graphicStateToElement).toList)]

def pdfStyleFromElement : Element → Option PdfStyle
  | .el n attrs children =>
      if n = "pdfStyle" then do
        let graphic_state ← childOpt graphicStateFromElement
          (getChild "graphicState" children)
        let font_id ← attrOpt avStr (getAttr "font_id" attrs)
        let font_size ← attrOpt avRat (getAttr "font_size" attrs)
        some ⟨graphic_state, font_id, font_size⟩
      else none

theorem pdfStyleFromElement_toElement (p : PdfStyle) :
    pdfStyleFromElement (pdfStyleToElement p) = some p := by
  obtain ⟨f1, f2, f3⟩ := p
  simp [pdfStyleToElement, pdfStyleFromElement, getAttr, getChild,
    List.find?, attrRat_rt, attrStr_rt,
    childOpt_map graphicStateFromElement graphicStateToElement
      graphicStateFromElement_toElement]

def pdfStyleToJson (p : PdfStyle) : Json :=
  .obj [("font_id", jsonOfOpt .js p.font_id),
    ("font_size", jsonOfOpt .jq p.font_size),
    ("graphic_state", jsonOfOpt graphicStateToJson p.graphic_state)]

def pdfStyleFromJson : Json → Option PdfStyle
  | .obj fs => do
      let font_id ← jsonField (jsonOpt jStr) (getField "font_id" fs)
      let font_size ← jsonField (jsonOpt jRat) (getField "font_size" fs)
      let graphic_state ← jsonField (jsonOpt graphicStateFromJson)
        (getField "graphic_state" fs)
      some ⟨graphic_state, font_id, font_size⟩
  | _ => none

theorem pdfStyleFromJson_toJson (p : PdfStyle) :
    pdfStyleFromJson (pdfStyleToJson p) = some p := by
  obtain ⟨f1, f2, f3⟩ := p
  simp [pdfStyleToJson, pdfStyleFromJson, getField, List.find?, jsonField,
    jsonRat_rt, jsonStr_rt, graphicStateJsonOpt_rt]

theorem baseOperationsJsonOpt_rt (o : Option BaseOperations) :
    jsonOpt baseOperationsFromJson (jsonOfOpt baseOperationsToJson o) =
      some o :=
  jsonOpt_map baseOperationsFromJson baseOperationsToJson
    baseOperationsFromJson_toJson (fun _ => by simp [baseOperationsToJson]) o

def pdfXobjectToElement (p : PdfXobject) : Element :=
  .el "pdfXobject"
    [("xobjId", p.xobj_id.map .aint), ("xrefId", p.xref_id.map .aint)]
    [("box", (p.box.map boxToElement).toList),
      ("pdfFont", p.pdf_font.map pdfFontToElement),
      ("baseOperations",
        (p.base_operations.map baseOperationsToElement).toList)]

def pdfXobjectFromElement : Element → Option PdfXobject
  | .el n attrs children =>
      if n = "pdfXobject" then do
        let box ← childOpt boxFromElement (getChild "box" children)
        let pdf_font ← decodeList pdfFontFromElement
          (getChild "pdfFont" children)
        let base_operations ← childOpt baseOperationsFromElement
          (getChild "baseOperations" children)
        let xobj_id ← attrOpt avInt (getAttr "xobjId" attrs)
        let xref_id ← attrOpt avInt (getAttr "xrefId" attrs)
        some ⟨box, pdf_font, base_operations, xobj_id, xref_id⟩
      else none

theorem pdfXobjectFromElement_toElement (p : PdfXobject) :
    pdfXobjectFromElement (pdfXobjectToElement p) = some p := by
  obtain ⟨f1, f2, f3, f4, f5⟩ := p
  simp [pdfXobjectToElement, pdfXobjectFromElement, getAttr, getChild,
    List.find?, attrInt_rt,
    childOpt_map boxFromElement boxToElement boxFromElement_toElement,
    childOpt_map baseOperationsFromElement baseOperationsToElement
      baseOperationsFromElement_toElement,
    decodeList_map pdfFontFromElement pdfFontToElement
      pdfFontFromElement_toElement]

def pdfXobjectToJson (p : PdfXobject) : Json :=
  .obj [("base_operations", jsonOfOpt baseOperationsToJson p.base_operations),
    ("box", jsonOfOpt boxToJson p.box),
    ("pdf_font", .arr (p.pdf_font.map pdfFontToJson)),
    ("xobj_id", jsonOfOpt .ji p.xobj_id),
    ("xref_id", jsonOfOpt .ji p.xref_id)]

def jsonList {α : Type} (dec : Json → Option α) : Json → Option (List α)
  | .arr vs => decodeList dec vs
  | _ => none

theorem jsonList_map {α : Type} (dec : Json → Option α) (enc : α → Json)
    (h : ∀ a, dec (enc a) = some a) (l : List α) :
    jsonList dec (.arr (l.map enc)) = some l := by
  rw [jsonList]
  exact decodeList_map dec enc h l

def pdfXobjectFromJson : Json → Option PdfXobject
  | .obj fs => do
      let base_operations ← jsonField (jsonOpt baseOperationsFromJson)
        (getField "base_operations" fs)
      let box ← jsonField (jsonOpt boxFromJson) (getField "box" fs)
      let pdf_font ← jsonField (jsonList pdfFontFromJson)
        (getField "pdf_font" fs)
      let xobj_id ← jsonField (jsonOpt jInt) (getField "xobj_id" fs)
      let xref_id ← jsonField (jsonOpt jInt) (getField "xref_id" fs)
      some ⟨box, pdf_font, base_operations, xobj_id, xref_id⟩
  | _ => none

theorem pdfXobjectFromJson_toJson (p : PdfXobject) :
    pdfXobjectFromJson (pdfXobjectToJson p) = some p := by
  obtain ⟨f1, f2, f3, f4, f5⟩ := p
  simp [pdfXobjectToJson, pdfXobjectFromJson, getField, List.find?,
    jsonField, jsonInt_rt, boxJsonOpt_rt, baseOperationsJsonOpt_rt,
    jsonList_map pdfFontFromJson pdfFontToJson pdfFontFromJson_toJson]

def pdfCharacterToElement (p : PdfCharacter) : Element :=
  .el "pdfCharacter"
    [("vertical", p.vertical.map .abool), ("scale", p.scale.map .arat),
      ("pdfCharacterId", p.pdf_character_id.map .aint),
      ("char_unicode", p.char_unicode.map .astr),
      ("advance", p.advance.map .arat), ("xobjId", p.xobj_id.map .aint),
      ("debug_info", p.debug_info.map .abool)]
    [("pdfStyle", (p.pdf_style.map pdfStyleToElement).toList),
      ("box", (p.box.map boxToElement).toList)]

def pdfCharacterFromElement : Element → Option PdfCharacter
  | .el n attrs children =>
      if n = "pdfCharacter" then do
        let pdf_style ← childOpt pdfStyleFromElement
          (getChild "pdfStyle" children)
        let box ← childOpt boxFromElement (getChild "box" children)
        let vertical ← attrOpt avBool (getAttr "vertical" attrs)
        let scale ← attrOpt avRat (getAttr "scale" attrs)
        let pdf_character_id ← attrOpt avInt (getAttr "pdfCharacterId" attrs)
        let char_unicode ← attrOpt avStr (getAttr "char_unicode" attrs)
        let advance ← attrOpt avRat (getAttr "advance" attrs)
        let xobj_id ← attrOpt avInt (getAttr "xobjId" attrs)
        let debug_info ← attrOpt avBool (getAttr "debug_info" attrs)
        some ⟨pdf_style, box, vertical, scale, pdf_character_id, char_unicode,
          advance, xobj_id, debug_info⟩
      else none

theorem pdfCharacterFromElement_toElement (p : PdfCharacter) :
    pdfCharacterFromElement (pdfCharacterToElement p) = some p := by
  obtain ⟨f1, f2, f3, f4, f5, f6, f7, f8, f9⟩ := p
  simp [pdfCharacterToElement, pdfCharacterFromElement, getAttr, getChild,
    List.find?, attrRat_rt, attrInt_rt, attrStr_rt, attrBool_rt,
    childOpt_map boxFromElement boxToElement boxFromElement_toElement,
    childOpt_map pdfStyleFromElement pdfStyleToElement
      pdfStyleFromElement_toElement]

theorem pdfStyleJsonOpt_rt (o : Option PdfStyle) :
    jsonOpt pdfStyleFromJson (jsonOfOpt pdfStyleToJson o) = some o :=
  jsonOpt_map pdfStyleFromJson pdfStyleToJson pdfStyleFromJson_toJson
    (fun _ => by simp [pdfStyleToJson]) o

def pdfCharacterToJson (p : PdfCharacter) : Json :=
  .obj [("advance", jsonOfOpt .jq p.advance),
    ("box", jsonOfOpt boxToJson p.box),
    ("char_unicode", jsonOfOpt .js p.char_unicode),
    ("debug_info", jsonOfOpt .jb p.debug_info),
    ("pdf_character_id", jsonOfOpt .ji p.pdf_character_id),
    ("pdf_style", jsonOfOpt pdfStyleToJson p.pdf_style),
    ("scale", jsonOfOpt .jq p.scale),
    ("vertical", jsonOfOpt .jb p.vertical),
    ("xobj_id", jsonOfOpt .ji p.xobj_id)]

def pdfCharacterFromJson : Json → Option PdfCharacter
  | .obj fs => do
      let advance ← jsonField (jsonOpt jRat) (getField "advance" fs)
      let box ← jsonField (jsonOpt boxFromJson) (getField "box" fs)
      let char_unicode ← jsonField (jsonOpt jStr) (getField "char_unicode" fs)
      let debug_info ← jsonField (jsonOpt jBool) (getField "debug_info" fs)
      let pdf_character_id ← jsonField (jsonOpt jInt)
        (getField "pdf_character_id" fs)
      let pdf_style ← jsonField (jsonOpt pdfStyleFromJson)
        (getField "pdf_style" fs)
      let scale ← jsonField (jsonOpt jRat) (getField "scale" fs)
      let vertical ← jsonField (jsonOpt jBool) (getField "vertical" fs)
      let xobj_id ← jsonField (jsonOpt jInt) (getField "xobj_id" fs)
      some ⟨pdf_style, box, vertical, scale, pdf_character_id, char_unicode,
        advance, xobj_id, debug_info⟩
  | _ => none

theorem pdfCharacterFromJson_toJson (p : PdfCharacter) :
    pdfCharacterFromJson (pdfCharacterToJson p) = some p := by
  obtain ⟨f1, f2, f3, f4, f5, f6, f7, f8, f9⟩ := p
  simp [pdfCharacterToJson, pdfCharacterFromJson, getField, List.find?,
    jsonField, jsonRat_rt, jsonInt_rt, jsonStr_rt, jsonBool_rt,
    boxJsonOpt_rt, pdfStyleJsonOpt_rt]

def pdfSameStyleUnicodeCharactersToElement
    (p : PdfSameStyleUnicodeCharacters) : Element :=
  .el "pdfSameStyleUnicodeCharacters"
    [("unicode", p.unicode.map .astr),
      ("debug_info", p.debug_info.map .abool)]
    [("pdfStyle", (p.pdf_style.map pdfStyleToElement).toList)]

def pdfSameStyleUnicodeCharactersFromElement :
    Element → Option PdfSameStyleUnicodeCharacters
  | .el n attrs children =>
      if n = "pdfSameStyleUnicodeCharacters" then do
        let pdf_style ← childOpt pdfStyleFromElement
          (getChild "pdfStyle" children)
        let unicode ← attrOpt avStr (getAttr "unicode" attrs)
        let debug_info ← attrOpt avBool (getAttr "debug_info" attrs)
        some ⟨pdf_style, unicode, debug_info⟩
      else none

theorem pdfSameStyleUnicodeCharactersFromElement_toElement
    (p : PdfSameStyleUnicodeCharacters) :
    pdfSameStyleUnicodeCharactersFromElement
      (pdfSameStyleUnicodeCharactersToElement p) = some p := by
  obtain ⟨f1, f2, f3⟩ := p
  simp [pdfSameStyleUnicodeCharactersToElement,
    pdfSameStyleUnicodeCharactersFromElement, getAttr, getChild, List.find?,
    attrStr_rt, attrBool_rt,
    childOpt_map pdfStyleFromElement pdfStyleToElement
      pdfStyleFromElement_toElement]

def pdfSameStyleUnicodeCharactersToJson
    (p : PdfSameStyleUnicodeCharacters) : Json :=
  .obj [("debug_info", jsonOfOpt .jb p.debug_info),
    ("pdf_style", jsonOfOpt pdfStyleToJson p.pdf_style),
    ("unicode", jsonOfOpt .js p.unicode)]

def pdfSameStyleUnicodeCharactersFromJson :
    Json → Option PdfSameStyleUnicodeCharacters
  | .obj fs => do
      let debug_info ← jsonField (jsonOpt jBool) (getField "debug_info" fs)
      let pdf_style ← jsonField (jsonOpt pdfStyleFromJson)
        (getField "pdf_style" fs)
      let unicode ← jsonField (jsonOpt jStr) (getField "unicode" fs)
      some ⟨pdf_style, unicode, debug_info⟩
  | _ => none

theorem pdfSameStyleUnicodeCharactersFromJson_toJson
    (p : PdfSameStyleUnicodeCharacters) :
    pdfSameStyleUnicodeCharactersFromJson
      (pdfSameStyleUnicodeCharactersToJson p) = some p := by
  obtain ⟨f1, f2, f3⟩ := p
  simp [pdfSameStyleUnicodeCharactersToJson,
    pdfSameStyleUnicodeCharactersFromJson, getField, List.find?, jsonField,
    jsonStr_rt, jsonBool_rt, pdfStyleJsonOpt_rt]

def pdfFormulaToElement (p : PdfFormula) : Element :=
  .el "pdfFormula"
    [("x_offset", p.x_offset.map .arat), ("y_offset", p.y_offset.map .arat)]
    [("box", (p.box.map boxToElement).toList),
      ("pdfCharacter", p.pdf_character.map pdfCharacterToElement)]

def pdfFormulaFromElement : Element → Option PdfFormula
  | .el n attrs children =>
      if n = "pdfFormula" then do
        let box ← childOpt boxFromElement (getChild "box" children)
        let pdf_character ← decodeList pdfCharacterFromElement
          (getChild "pdfCharacter" children)
        let x_offset ← attrOpt avRat (getAttr "x_offset" attrs)
        let y_offset ← attrOpt avRat (getAttr "y_offset" attrs)
        some ⟨box, pdf_character, x_offset, y_offset⟩
      else none

theorem pdfFormulaFromElement_toElement (p : PdfFormula) :
    pdfFormulaFromElement (pdfFormulaToElement p) = some p := by
  obtain ⟨f1, f2, f3, f4⟩ := p
  simp [pdfFormulaToElement, pdfFormulaFromElement, getAttr, getChild,
    List.find?, attrRat_rt,
    childOpt_map boxFromElement boxToElement boxFromElement_toElement,
    decodeList_map pdfCharacterFromElement pdfCharacterToElement
      pdfCharacterFromElement_toElement]

def pdfFormulaToJson (p : PdfFormula) : Json :=
  .obj [("box", jsonOfOpt boxToJson p.box),
    ("pdf_character", .arr (p.pdf_character.map pdfCharacterToJson)),
    ("x_offset", jsonOfOpt .jq p.x_offset),
    ("y_offset", jsonOfOpt .jq p.y_offset)]

def pdfFormulaFromJson : Json → Option PdfFormula
  | .obj fs => do
      let box ← jsonField (jsonOpt boxFromJson) (getField "box" fs)
      let pdf_character ← jsonField (jsonList pdfCharacterFromJson)
        (getField "pdf_character" fs)
      let x_offset ← jsonField (jsonOpt jRat) (getField "x_offset" fs)
      let y_offset ← jsonField (jsonOpt jRat) (getField "y_offset" fs)
      some ⟨box, pdf_character, x_offset, y_offset⟩
  | _ => none

theorem pdfFormulaFromJson_toJson (p : PdfFormula) :
    pdfFormulaFromJson (pdfFormulaToJson p) = some p := by
  obtain ⟨f1, f2, f3, f4⟩ := p
  simp [pdfFormulaToJson, pdfFormulaFromJson, getField, List.find?,
    jsonField, jsonRat_rt, boxJsonOpt_rt,
    jsonList_map pdfCharacterFromJson pdfCharacterToJson
      pdfCharacterFromJson_toJson]

def pdfLineToElement (p : PdfLine) : Element :=
  .el "pdfLine" []
    [("box", (p.box.map boxToElement).toList),
      ("pdfCharacter", p.pdf_character.map pdfCharacterToElement)]

def pdfLineFromElement : Element → Option PdfLine
  | .el n [] children =>
      if n = "pdfLine" then do
        let box ← childOpt boxFromElement (getChild "box" children)
        let pdf_character ← decodeList pdfCharacterFromElement
          (getChild "pdfCharacter" children)
        some ⟨box, pdf_character⟩
      else none
  | _ => none

theorem pdfLineFromElement_toElement (p : PdfLine) :
    pdfLineFromElement (pdfLineToElement p) = some p := by
  obtain ⟨f1, f2⟩ := p
  simp [pdfLineToElement, pdfLineFromElement, getChild, List.find?,
    childOpt_map boxFromElement boxToElement boxFromElement_toElement,
    decodeList_map pdfCharacterFromElement pdfCharacterToElement
      pdfCharacterFromElement_toElement]

def pdfLineToJson (p : PdfLine) : Json :=
  .obj [("box", jsonOfOpt boxToJson p.box),
    ("pdf_character", .arr (p.pdf_character.map pdfCharacterToJson))]

def pdfLineFromJson : Json → Option PdfLine
  | .obj fs => do
      let box ← jsonField (jsonOpt boxFromJson) (getField "box" fs)
      let pdf_character ← jsonField (jsonList pdfCharacterFromJson)
        (getField "pdf_character" fs)
      some ⟨box, pdf_character⟩
  | _ => none

theorem pdfLineFromJson_toJson (p : PdfLine) :
    pdfLineFromJson (pdfLineToJson p) = some p := by
  obtain ⟨f1, f2⟩ := p
  simp [pdfLineToJson, pdfLineFromJson, getField, List.find?, jsonField,
    boxJsonOpt_rt,
    jsonList_map pdfCharacterFromJson pdfCharacterToJson
      pdfCharacterFromJson_toJson]

def pdfSameStyleCharactersToElement (p : PdfSameStyleCharacters) : Element :=
  .el "pdfSameStyleCharacters" []
    [("box", (p.box.map boxToElement).toList),
      ("pdfStyle", (p.pdf_style.map pdfStyleToElement).toList),
      ("pdfCharacter", p.pdf_character.map pdfCharacterToElement)]

def pdfSameStyleCharactersFromElement :
    Element → Option PdfSameStyleCharacters
  | .el n [] children =>
      if n = "pdfSameStyleCharacters" then do
        let box ← childOpt boxFromElement (getChild "box" children)
        let pdf_style ← childOpt pdfStyleFromElement
          (getChild "pdfStyle" children)
        let pdf_character ← decodeList pdfCharacterFromElement
          (getChild "pdfCharacter" children)
        some ⟨box, pdf_style, pdf_character⟩
      else none
  | _ => none

theorem pdfSameStyleCharactersFromElement_toElement
    (p : PdfSameStyleCharacters) :
    pdfSameStyleCharactersFromElement (pdfSameStyleCharactersToElement p) =
      some p := by
  obtain ⟨f1, f2, f3⟩ := p
  simp [pdfSameStyleCharactersToElement, pdfSameStyleCharactersFromElement,
    getChild, List.find?,
    childOpt_map boxFromElement boxToElement boxFromElement_toElement,
    childOpt_map pdfStyleFromElement pdfStyleToElement
      pdfStyleFromElement_toElement,
    decodeList_map pdfCharacterFromElement pdfCharacterToElement
      pdfCharacterFromElement_toElement]

def pdfSameStyleCharactersToJson (p : PdfSameStyleCharacters) : Json :=
  .obj [("box", jsonOfOpt boxToJson p.box),
    ("pdf_character", .arr (p.pdf_character.map pdfCharacterToJson)),
    ("pdf_style", jsonOfOpt pdfStyleToJson p.pdf_style)]

def pdfSameStyleCharactersFromJson : Json → Option PdfSameStyleCharacters
  | .obj fs => do
      let box ← jsonField (jsonOpt boxFromJson) (getField "box" fs)
      let pdf_character ← jsonField (jsonList pdfCharacterFromJson)
        (getField "pdf_character" fs)
      let pdf_style ← jsonField (jsonOpt pdfStyleFromJson)
        (getField "pdf_style" fs)
      some ⟨box, pdf_style, pdf_character⟩
  | _ => none

theorem pdfSameStyleCharactersFromJson_toJson (p : PdfSameStyleCharacters) :
    pdfSameStyleCharactersFromJson (pdfSameStyleCharactersToJson p) =
      some p := by
  obtain ⟨f1, f2, f3⟩ := p
  simp [pdfSameStyleCharactersToJson, pdfSameStyleCharactersFromJson,
    getField, List.find?, jsonField, boxJsonOpt_rt, pdfStyleJsonOpt_rt,
    jsonList_map pdfCharacterFromJson pdfCharacterToJson
      pdfCharacterFromJson_toJson]

def pdfParagraphCompositionToElement (p : PdfParagraphComposition) :
    Element :=
  .el "pdfParagraphComposition" []
    [("pdfLine", (p.pdf_line.map pdfLineToElement).toList),
      ("pdfFormula", (p.pdf_formula.map pdfFormulaToElement).toList),
      ("pdfSameStyleCharacters",
        (p.pdf_same_style_characters.map
          pdfSameStyleCharactersToElement).toList),
      ("pdfCharacter", (p.pdf_character.map pdfCharacterToElement).toList),
      ("pdfSameStyleUnicodeCharacters",
        (p.pdf_same_style_unicode_characters.map
          pdfSameStyleUnicodeCharactersToElement).toList)]

def pdfParagraphCompositionFromElement :
    Element → Option PdfParagraphComposition
  | .el n [] children =>
      if n = "pdfParagraphComposition" then do
        let pdf_line ← childOpt pdfLineFromElement
          (getChild "pdfLine" children)
        let pdf_formula ← childOpt pdfFormulaFromElement
          (getChild "pdfFormula" children)
        let pssc ← childOpt pdfSameStyleCharactersFromElement
          (getChild "pdfSameStyleCharacters" children)
        let pdf_character ← childOpt pdfCharacterFromElement
          (getChild "pdfCharacter" children)
        let pssuc ← childOpt pdfSameStyleUnicodeCharactersFromElement
          (getChild "pdfSameStyleUnicodeCharacters" children)
        some ⟨pdf_line, pdf_formula, pssc, pdf_character, pssuc⟩
      else none
  | _ => none

theorem pdfParagraphCompositionFromElement_toElement
    (p : PdfParagraphComposition) :
    pdfParagraphCompositionFromElement (pdfParagraphCompositionToElement p) =
      some p := by
  obtain ⟨f1, f2, f3, f4, f5⟩ := p
  simp [pdfParagraphCompositionToElement, pdfParagraphCompositionFromElement,
    getChild, List.find?,
    childOpt_map pdfLineFromElement pdfLineToElement
      pdfLineFromElement_toElement,
    childOpt_map pdfFormulaFromElement pdfFormulaToElement
      pdfFormulaFromElement_toElement,
    childOpt_map pdfSameStyleCharactersFromElement
      pdfSameStyleCharactersToElement
      pdfSameStyleCharactersFromElement_toElement,
    childOpt_map pdfCharacterFromElement pdfCharacterToElement
      pdfCharacterFromElement_toElement,
    childOpt_map pdfSameStyleUnicodeCharactersFromElement
      pdfSameStyleUnicodeCharactersToElement
      pdfSameStyleUnicodeCharactersFromElement_toElement]

def pdfParagraphCompositionToJson (p : PdfParagraphComposition) : Json :=
  .obj [("pdf_character", jsonOfOpt pdfCharacterToJson p.pdf_character),
    ("pdf_formula", jsonOfOpt pdfFormulaToJson p.pdf_formula),
    ("pdf_line", jsonOfOpt pdfLineToJson p.pdf_line),
    ("pdf_same_style_characters",
      jsonOfOpt pdfSameStyleCharactersToJson p.pdf_same_style_characters),
    ("pdf_same_style_unicode_characters",
      jsonOfOpt pdfSameStyleUnicodeCharactersToJson
        p.pdf_same_style_unicode_characters)]

def pdfParagraphCompositionFromJson : Json → Option PdfParagraphComposition
  | .obj fs => do
      let pdf_character ← jsonField (jsonOpt pdfCharacterFromJson)
        (getField "pdf_character" fs)
      let pdf_formula ← jsonField (jsonOpt pdfFormulaFromJson)
        (getField "pdf_formula" fs)
      let pdf_line ← jsonField (jsonOpt pdfLineFromJson)
        (getField "pdf_line" fs)
      let pssc ← jsonField (jsonOpt pdfSameStyleCharactersFromJson)
        (getField "pdf_same_style_characters" fs)
      let pssuc ← jsonField (jsonOpt pdfSameStyleUnicodeCharactersFromJson)
        (getField "pdf_same_style_unicode_characters" fs)
      some ⟨pdf_line, pdf_formula, pssc, pdf_character, pssuc⟩
  | _ => none

theorem pdfParagraphCompositionFromJson_toJson (p : PdfParagraphComposition) :
    pdfParagraphCompositionFromJson (pdfParagraphCompositionToJson p) =
      some p := by
  obtain ⟨f1, f2, f3, f4, f5⟩ := p
  simp [pdfParagraphCompositionToJson, pdfParagraphCompositionFromJson,
    getField, List.find?, jsonField,
    jsonOpt_map pdfCharacterFromJson pdfCharacterToJson
      pdfCharacterFromJson_toJson (fun _ => by simp [pdfCharacterToJson]),
    jsonOpt_map pdfFormulaFromJson pdfFormulaToJson pdfFormulaFromJson_toJson
      (fun _ => by simp [pdfFormulaToJson]),
    jsonOpt_map pdfLineFromJson pdfLineToJson pdfLineFromJson_toJson
      (fun _ => by simp [pdfLineToJson]),
    jsonOpt_map pdfSameStyleCharactersFromJson pdfSameStyleCharactersToJson
      pdfSameStyleCharactersFromJson_toJson
      (fun _ => by simp [pdfSameStyleCharactersToJson]),
    jsonOpt_map pdfSameStyleUnicodeCharactersFromJson
      pdfSameStyleUnicodeCharactersToJson
      pdfSameStyleUnicodeCharactersFromJson_toJson
      (fun _ => by simp [pdfSameStyleUnicodeCharactersToJson])]

def pdfParagraphToElement (p : PdfParagraph) : Element :=
  .el "pdfParagraph"
    [("xobjId", p.xobj_id.map .aint), ("unicode", p.unicode.map .astr),
      ("scale", p.scale.map .arat), ("vertical", p.vertical.map .abool),
      ("FirstLineIndent", p.first_line_indent.map .abool),
      ("debug_id", p.debug_id.map .astr)]
    [("box", (p.box.map boxToElement).toList),
      ("pdfStyle", (p.pdf_style.map pdfStyleToElement).toList),
      ("pdfParagraphComposition",
        p.pdf_paragraph_composition.map pdfParagraphCompositionToElement)]

def pdfParagraphFromElement : Element → Option PdfParagraph
  | .el n attrs children =>
      if n = "pdfParagraph" then do
        let box ← childOpt boxFromElement (getChild "box" children)
        let pdf_style ← childOpt pdfStyleFromElement
          (getChild "pdfStyle" children)
        let ppc ← decodeList pdfParagraphCompositionFromElement
          (getChild "pdfParagraphComposition" children)
        let xobj_id ← attrOpt avInt (getAttr "xobjId" attrs)
        let unicode ← attrOpt avStr (getAttr "unicode" attrs)
        let scale ← attrOpt avRat (getAttr "scale" attrs)
        let vertical ← attrOpt avBool (getAttr "vertical" attrs)
        let fli ← attrOpt avBool (getAttr "FirstLineIndent" attrs)
        let debug_id ← attrOpt avStr (getAttr "debug_id" attrs)
        some ⟨box, pdf_style, ppc, xobj_id, unicode, scale, vertical, fli,
          debug_id⟩
      else none

theorem pdfParagraphFromElement_toElement (p : PdfParagraph) :
    pdfParagraphFromElement (pdfParagraphToElement p) = some p := by
  obtain ⟨f1, f2, f3, f4, f5, f6, f7, f8, f9⟩ := p
  simp [pdfParagraphToElement, pdfParagraphFromElement, getAttr, getChild,
    List.find?, attrRat_rt, attrInt_rt, attrStr_rt, attrBool_rt,
    childOpt_map boxFromElement boxToElement boxFromElement_toElement,
    childOpt_map pdfStyleFromElement pdfStyleToElement
      pdfStyleFromElement_toElement,
    decodeList_map pdfParagraphCompositionFromElement
      pdfParagraphCompositionToElement
      pdfParagraphCompositionFromElement_toElement]

def pdfParagraphToJson (p : PdfParagraph) : Json :=
  .obj [("box", jsonOfOpt boxToJson p.box),
    ("debug_id", jsonOfOpt .js p.debug_id),
    ("first_line_indent", jsonOfOpt .jb p.first_line_indent),
    ("pdf_paragraph_composition",
      .arr (p.pdf_paragraph_composition.map pdfParagraphCompositionToJson)),
    ("pdf_style", jsonOfOpt pdfStyleToJson p.pdf_style),
    ("scale", jsonOfOpt .jq p.scale),
    ("unicode", jsonOfOpt .js p.unicode),
    ("vertical", jsonOfOpt .jb p.vertical),
    ("xobj_id", jsonOfOpt .ji p.xobj_id)]

def pdfParagraphFromJson : Json → Option PdfParagraph
  | .obj fs => do
      let box ← jsonField (jsonOpt boxFromJson) (getField "box" fs)
      let debug_id ← jsonField (jsonOpt jStr) (getField "debug_id" fs)
      let fli ← jsonField (jsonOpt jBool) (getField "first_line_indent" fs)
      let ppc ← jsonField (jsonList pdfParagraphCompositionFromJson)
        (getField "pdf_paragraph_composition" fs)
      let pdf_style ← jsonField (jsonOpt pdfStyleFromJson)
        (getField "pdf_style" fs)
      let scale ← jsonField (jsonOpt jRat) (getField "scale" fs)
      let unicode ← jsonField (jsonOpt jStr) (getField "unicode" fs)
      let vertical ← jsonField (jsonOpt jBool) (getField "vertical" fs)
      let xobj_id ← jsonField (jsonOpt jInt) (getField "xobj_id" fs)
      some ⟨box, pdf_style, ppc, xobj_id, unicode, scale, vertical, fli,
        debug_id⟩
  | _ => none

theorem pdfParagraphFromJson_toJson (p : PdfParagraph) :
    pdfParagraphFromJson (pdfParagraphToJson p) = some p := by
  obtain ⟨f1, f2, f3, f4, f5, f6, f7, f8, f9⟩ := p
  simp [pdfParagraphToJson, pdfParagraphFromJson, getField, List.find?,
    jsonField, jsonRat_rt, jsonInt_rt, jsonStr_rt, jsonBool_rt,
    boxJsonOpt_rt, pdfStyleJsonOpt_rt,
    jsonList_map pdfParagraphCompositionFromJson
      pdfParagraphCompositionToJson pdfParagraphCompositionFromJson_toJson]

def pageToElement (p : Page) : Element :=
  .el "page"
    [("pageNumber", p.page_number.map .aint), ("Unit", p.unit.map .astr)]
    [("mediabox", (p.mediabox.map mediaboxToElement).toList),
      ("cropbox", (p.cropbox.map cropboxToElement).toList),
      ("pdfXobject", p.pdf_xobject.map pdfXobjectToElement),
      ("pageLayout", p.page_layout.map pageLayoutToElement),
      ("pdfRectangle", p.pdf_rectangle.map pdfRectangleToElement),
      ("pdfFont", p.pdf_font.map pdfFontToElement),
      ("pdfParagraph", p.pdf_paragraph.map pdfParagraphToElement),
      ("pdfFigure", p.pdf_figure.map pdfFigureToElement),
      ("pdfCharacter", p.pdf_character.map pdfCharacterToElement),
      ("baseOperations",
        (p.base_operations.map baseOperationsToElement).toList)]

def pageFromElement : Element → Option Page
  | .el n attrs children =>
      if n = "page" then do
        let mediabox ← childOpt mediaboxFromElement
          (getChild "mediabox" children)
        let cropbox ← childOpt cropboxFromElement
          (getChild "cropbox" children)
        let pdf_xobject ← decodeList pdfXobjectFromElement
          (getChild "pdfXobject" children)
        let page_layout ← decodeList pageLayoutFromElement
          (getChild "pageLayout" children)
        let pdf_rectangle ← decodeList pdfRectangleFromElement
          (getChild "pdfRectangle" children)
        let pdf_font ← decodeList pdfFontFromElement
          (getChild "pdfFont" children)
        let pdf_paragraph ← decodeList pdfParagraphFromElement
          (getChild "pdfParagraph" children)
        let pdf_figure ← decodeList pdfFigureFromElement
          (getChild "pdfFigure" children)
        let pdf_character ← decodeList pdfCharacterFromElement
          (getChild "pdfCharacter" children)
        let base_operations ← childOpt baseOperationsFromElement
          (getChild "baseOperations" children)
        let page_number ← attrOpt avInt (getAttr "pageNumber" attrs)
        let unit ← attrOpt avStr (getAttr "Unit" attrs)
        some ⟨mediabox, cropbox, pdf_xobject, page_layout, pdf_rectangle,
          pdf_font, pdf_paragraph, pdf_figure, pdf_character,
          base_operations, page_number, unit⟩
      else none

theorem pageFromElement_toElement (p : Page) :
    pageFromElement (pageToElement p) = some p := by
  obtain ⟨f1, f2, f3, f4, f5, f6, f7, f8, f9, f10, f11, f12⟩ := p
  simp [pageToElement, pageFromElement, getAttr, getChild, List.find?,
    attrInt_rt, attrStr_rt,
    childOpt_map mediaboxFromElement mediaboxToElement
      mediaboxFromElement_toElement,
    childOpt_map cropboxFromElement cropboxToElement
      cropboxFromElement_toElement,
    childOpt_map baseOperationsFromElement baseOperationsToElement
      baseOperationsFromElement_toElement,
    decodeList_map pdfXobjectFromElement pdfXobjectToElement
      pdfXobjectFromElement_toElement,
    decodeList_map pageLayoutFromElement pageLayoutToElement
      pageLayoutFromElement_toElement,
    decodeList_map pdfRectangleFromElement pdfRectangleToElement
      pdfRectangleFromElement_toElement,
    decodeList_map pdfFontFromElement pdfFontToElement
      pdfFontFromElement_toElement,
    decodeList_map pdfParagraphFromElement pdfParagraphToElement
      pdfParagraphFromElement_toElement,
    decodeList_map pdfFigureFromElement pdfFigureToElement
      pdfFigureFromElement_toElement,
    decodeList_map pdfCharacterFromElement pdfCharacterToElement
      pdfCharacterFromElement_toElement]

def pageToJson (p : Page) : Json :=
  .obj [("base_operations", jsonOfOpt baseOperationsToJson p.base_operations),
    ("cropbox", jsonOfOpt cropboxToJson p.cropbox),
    ("mediabox", jsonOfOpt mediaboxToJson p.mediabox),
    ("page_layout", .arr (p.page_layout.map pageLayoutToJson)),
    ("page_number", jsonOfOpt .ji p.page_number),
    ("pdf_character", .arr (p.pdf_character.map pdfCharacterToJson)),
    ("pdf_figure", .arr (p.pdf_figure.map pdfFigureToJson)),
    ("pdf_font", .arr (p.pdf_font.map pdfFontToJson)),
    ("pdf_paragraph", .arr (p.pdf_paragraph.map pdfParagraphToJson)),
    ("pdf_rectangle", .arr (p.pdf_rectangle.map pdfRectangleToJson)),
    ("pdf_xobject", .arr (p.pdf_xobject.map pdfXobjectToJson)),
    ("unit", jsonOfOpt .js p.unit)]

def pageFromJson : Json → Option Page
  | .obj fs => do
      let base_operations ← jsonField (jsonOpt baseOperationsFromJson)
        (getField "base_operations" fs)
      let cropbox ← jsonField (jsonOpt cropboxFromJson)
        (getField "cropbox" fs)
      let mediabox ← jsonField (jsonOpt mediaboxFromJson)
        (getField "mediabox" fs)
      let page_layout ← jsonField (jsonList pageLayoutFromJson)
        (getField "page_layout" fs)
      let page_number ← jsonField (jsonOpt jInt) (getField "page_number" fs)
      let pdf_character ← jsonField (jsonList pdfCharacterFromJson)
        (getField "pdf_character" fs)
      let pdf_figure ← jsonField (jsonList pdfFigureFromJson)
        (getField "pdf_figure" fs)
      let pdf_font ← jsonField (jsonList pdfFontFromJson)
        (getField "pdf_font" fs)
      let pdf_paragraph ← jsonField (jsonList pdfParagraphFromJson)
        (getField "pdf_paragraph" fs)
      let pdf_rectangle ← jsonField (jsonList pdfRectangleFromJson)
        (getField "pdf_rectangle" fs)
      let pdf_xobject ← jsonField (jsonList pdfXobjectFromJson)
        (getField "pdf_xobject" fs)
      let unit ← jsonField (jsonOpt jStr) (getField "unit" fs)
      some ⟨mediabox, cropbox, pdf_xobject, page_layout, pdf_rectangle,
        pdf_font, pdf_paragraph, pdf_figure, pdf_character, base_operations,
        page_number, unit⟩
  | _ => none

theorem pageFromJson_toJson (p : Page) : pageFromJson (pageToJson p) = some p := by
  obtain ⟨f1, f2, f3, f4, f5, f6, f7, f8, f9, f10, f11, f12⟩ := p
  simp [pageToJson, pageFromJson, getField, List.find?, jsonField,
    jsonInt_rt, jsonStr_rt,
    jsonOpt_map baseOperationsFromJson baseOperationsToJson
      baseOperationsFromJson_toJson
      (fun _ => by simp [baseOperationsToJson]),
    jsonOpt_map cropboxFromJson cropboxToJson cropboxFromJson_toJson
      (fun _ => by simp [cropboxToJson]),
    jsonOpt_map mediaboxFromJson mediaboxToJson mediaboxFromJson_toJson
      (fun _ => by simp [mediaboxToJson]),
    jsonList_map pageLayoutFromJson pageLayoutToJson pageLayoutFromJson_toJson,
    jsonList_map pdfCharacterFromJson pdfCharacterToJson
      pdfCharacterFromJson_toJson,
    jsonList_map pdfFigureFromJson pdfFigureToJson pdfFigureFromJson_toJson,
    jsonList_map pdfFontFromJson pdfFontToJson pdfFontFromJson_toJson,
    jsonList_map pdfParagraphFromJson pdfParagraphToJson
      pdfParagraphFromJson_toJson,
    jsonList_map pdfRectangleFromJson pdfRectangleToJson
      pdfRectangleFromJson_toJson,
    jsonList_map pdfXobjectFromJson pdfXobjectToJson
      pdfXobjectFromJson_toJson]

/-- Modelled from the spec: `XMLConverter.to_xml` — the whole `Document`
rendered as its element tree. -/
def to_xml (d : Document) : Element :=
  .el "document" [("totalPages", d.total_pages.map .aint)]
    [("page", d.page.map pageToElement)]

/-- Modelled from the spec: `XMLConverter.from_xml` — parse the element
tree back into a `Document`. -/
def from_xml : Element → Option Document
  | .el n attrs children =>
      if n = "document" then do
        let page ← decodeList pageFromElement (getChild "page" children)
        let total_pages ← attrOpt avInt (getAttr "totalPages" attrs)
        some ⟨page, total_pages⟩
      else none

/-- Modelled from the spec: `XMLConverter.to_json` — orjson's rendering of
the `Document` dataclass with sorted keys. -/
def to_json (d : Document) : Json :=
  .obj [("page", .arr (d.page.map pageToJson)),
    ("total_pages", jsonOfOpt .ji d.total_pages)]

/-- Modelled from the spec: the inverse of `to_json` asserted by the
round-trip sentence (the repository itself never parses JSON back). -/
def from_json : Json → Option Document
  | .obj fs => do
      let page ← jsonField (jsonList pageFromJson) (getField "page" fs)
      let total_pages ← jsonField (jsonOpt jInt) (getField "total_pages" fs)
      some ⟨page, total_pages⟩
  | _ => none

/-- C9: For every Document in the intermediate-language schema,
serializing to the structured text (XML) form and parsing back yields a
Document equal field-for-field to the original, and the JSON form enjoys
the same round-trip property. The document types are embedded
field-for-field from `il_version_1.py`; the serializer pair is modelled
from the spec (xsdata/orjson are external libraries, and the JSON parsing
direction exists only in the spec's round-trip sentence, not in the
repository). -/
theorem document_serialization_round_trip (d : Document) :
    from_xml (to_xml d) = some d ∧ from_json (to_json d) = some d := by
  obtain ⟨pages, total⟩ := d
  constructor
  · simp [to_xml, from_xml, getAttr, getChild, List.find?, attrInt_rt,
      decodeList_map pageFromElement pageToElement pageFromElement_toElement]
  · simp [to_json, from_json, getField, List.find?, jsonField, jsonInt_rt,
      jsonList_map pageFromJson pageToJson pageFromJson_toJson]

end XmlConv
